import Mathlib

/-!
Shallow embedding of the CloudSim distributed-storage repository
(`src/core/storage_node.py`, `src/core/storage_network.py`,
`src/distributed/distributed_node.py`, `src/network/protocol.py`,
`src/monitoring/heartbeat_monitor.py`,
`src/replication/replication_manager.py`, `src/utils/config_loader.py`)
together with theorems settling the frozen claims about it.

Conventions of the embedding:
  - Python `bytes` values are `List Nat` (one entry per byte).
  - Python `dict`s are association lists with unique keys; assignment
    replaces in place (`ainsert`), `pop`/`del` removes (`aerase`).
  - Python `set`s of strings are lists without duplicates (`sadd`,
    `sdiscard`).
  - Python `float` arithmetic on bandwidth values is modelled exactly
    over `Rat` (the literal `0.8` becomes `4/5`).
  - SHA-256 is an opaque parameter `hash : List Nat → String`; every
    theorem below holds for an arbitrary hash function, hence in
    particular for SHA-256.
  - The simulated `time.sleep` calls are skipped; they do not change any
    state.
-/

namespace CloudSim

/-- Byte strings are lists of byte values. -/
abbrev Bytes := List Nat

/-- Python dict assignment `d[k] = v`: replace the value of an existing
key in place, otherwise append the new binding at the end. -/
def ainsert {β : Type} (k : String) (v : β) : List (String × β) → List (String × β)
  | [] => [(k, v)]
  | (k', v') :: rest => if k' = k then (k, v) :: rest else (k', v') :: ainsert k v rest

/-- Python dict `pop`/`del`: remove the binding of a key. -/
def aerase {β : Type} (k : String) (l : List (String × β)) : List (String × β) :=
  l.filter (fun p => p.1 ≠ k)

/-- Python `set.add`: append the element unless already present. -/
def sadd (x : String) (s : List String) : List String :=
  if x ∈ s then s else s ++ [x]

/-- Python `set.discard`: remove the element. -/
def sdiscard (x : String) (s : List String) : List String :=
  s.filter (· ≠ x)

/-! ## Chunker (`StorageVirtualNode._calculate_chunk_size`, `_generate_chunks`)

Configuration defaults are from `ChunkingConfig` in
`src/utils/config_loader.py`. -/

def small_file_threshold : Nat := 10 * 1024 * 1024

def medium_file_threshold : Nat := 100 * 1024 * 1024

def small_chunk_size : Nat := 512 * 1024

def medium_chunk_size : Nat := 2 * 1024 * 1024

def large_chunk_size : Nat := 10 * 1024 * 1024

/-- Embeds `StorageVirtualNode._calculate_chunk_size`. -/
def calculate_chunk_size (file_size : Nat) : Nat :=
  if file_size < small_file_threshold then small_chunk_size
  else if file_size < medium_file_threshold then medium_chunk_size
  else large_chunk_size

inductive TransferStatus
  | PENDING
  | IN_PROGRESS
  | COMPLETED
  | FAILED
  | CANCELLED
deriving DecidableEq, Repr

/-- Embeds the dataclass `FileChunk` of `src/core/data_structures.py`
(the fields the claims use). -/
structure FileChunk where
  chunk_id : Nat
  size : Nat
  data : Bytes
  checksum : String
  status : TransferStatus := TransferStatus.PENDING
deriving DecidableEq, Repr

instance : Inhabited FileChunk := ⟨{ chunk_id := 0, size := 0, data := [], checksum := "" }⟩

/-- Embeds `StorageVirtualNode._generate_chunks`: `num_chunks =
math.ceil(file_size / chunk_size)` and chunk `i` is
`file_data[i*chunk_size : min((i+1)*chunk_size, file_size)]`. -/
def generate_chunks (hash : Bytes → String) (file_data : Bytes) : List FileChunk :=
  let file_size := file_data.length
  let chunk_size := calculate_chunk_size file_size
  let num_chunks := (file_size + chunk_size - 1) / chunk_size
  (List.range num_chunks).map fun i =>
    let start := i * chunk_size
    let fin := min (start + chunk_size) file_size
    let chunk_data := (file_data.drop start).take (fin - start)
    { chunk_id := i
      size := chunk_data.length
      data := chunk_data
      checksum := hash chunk_data }

/-! ## Storage virtual node (`src/core/storage_node.py`)

Only the state touched by `initiate_file_transfer`,
`process_chunk_transfer` and `complete_chunk_transfer` is modelled.
Bandwidth quantities are Python floats, modelled exactly over `Rat`. -/

/-- Embeds the dataclass `FileTransfer` (the fields the claims use). -/
structure FileTransfer where
  file_id : String
  file_name : String
  total_size : Nat
  chunks : List FileChunk
  status : TransferStatus := TransferStatus.PENDING
  source_node : Option String := none
  replication_factor : Nat := 3
deriving DecidableEq, Repr

/-- Embeds the mutable state of `StorageVirtualNode`. `total_storage` is
`storage_capacity` in bytes, `bandwidth` in bits per second.
`network_utilization` is kept equal to the sum of
`active_bandwidth_usage` by every operation of the source, so it is
modelled as the derived value `networkUtilization` below. -/
structure StorageVirtualNode where
  node_id : String
  total_storage : Nat
  bandwidth : Rat
  used_storage : Nat := 0
  active_transfers : List (String × FileTransfer) := []
  stored_files : List (String × FileTransfer) := []
  active_bandwidth_usage : List (String × Rat) := []
  connections : List (String × Rat) := []
deriving DecidableEq, Repr

/-- Live value of `self.network_utilization`: the source recomputes
`sum(self.active_bandwidth_usage.values())` after every mutation. -/
def networkUtilization (node : StorageVirtualNode) : Rat :=
  (node.active_bandwidth_usage.map Prod.snd).sum

/-- Transfer key `f"{file_id}_{chunk_id}"`. -/
def transferKey (file_id : String) (chunk_id : Nat) : String :=
  file_id ++ "_" ++ toString chunk_id

/-- Embeds `StorageVirtualNode.initiate_file_transfer`: refuse with
`None` when `used_storage + file_size > total_storage`, otherwise build
the chunk list and record the transfer in `active_transfers`. -/
def initiate_file_transfer (hash : Bytes → String) (node : StorageVirtualNode)
    (file_id file_name : String) (file_data : Bytes)
    (source_node : Option String := none) (replication_factor : Nat := 3) :
    StorageVirtualNode × Option FileTransfer :=
  let file_size := file_data.length
  if node.used_storage + file_size > node.total_storage then
    (node, none)
  else
    let chunks := generate_chunks hash file_data
    let transfer : FileTransfer :=
      { file_id := file_id
        file_name := file_name
        total_size := file_size
        chunks := chunks
        source_node := source_node
        replication_factor := replication_factor }
    ({ node with active_transfers := ainsert file_id transfer node.active_transfers },
     some transfer)

/-- Mutation of the first chunk whose `chunk_id` matches (the source's
`next(c for c in transfer.chunks if c.chunk_id == chunk_id)` yields one
object which is then mutated in place). -/
def updateFirstChunk (chunk_id : Nat) (f : FileChunk → FileChunk) :
    List FileChunk → List FileChunk
  | [] => []
  | c :: rest =>
    if c.chunk_id = chunk_id then f c :: rest
    else c :: updateFirstChunk chunk_id f rest

/-- Embeds `StorageVirtualNode.process_chunk_transfer`. Returns the new
node state and the boolean result. `verify_on_write` is
`config.storage.verify_on_write` (default `true`); the simulated
`time.sleep` is skipped (it changes no state). -/
def process_chunk_transfer (hash : Bytes → String) (verify_on_write : Bool)
    (node : StorageVirtualNode) (file_id : String) (chunk_id : Nat)
    (source_node : String) : StorageVirtualNode × Bool :=
  match List.lookup file_id node.active_transfers with
  | none => (node, false)
  | some transfer =>
    match transfer.chunks.find? (fun c => c.chunk_id = chunk_id) with
    | none => (node, false)
    | some chunk =>
      if verify_on_write ∧ hash chunk.data ≠ chunk.checksum then
        let chunks' := updateFirstChunk chunk_id
          (fun c => { c with status := TransferStatus.FAILED }) transfer.chunks
        let transfer' := { transfer with chunks := chunks' }
        let node' :=
          { node with active_transfers := ainsert file_id transfer' node.active_transfers }
        (node', false)
      else
        let connection_bandwidth :=
          (List.lookup source_node node.connections).getD node.bandwidth
        let available_bandwidth :=
          min (node.bandwidth - networkUtilization node) connection_bandwidth
        if available_bandwidth ≤ 0 then (node, false)
        else
          let key := transferKey file_id chunk_id
          let bandwidth_used := (4 / 5 : Rat) * available_bandwidth
          let usage1 := ainsert key bandwidth_used node.active_bandwidth_usage
          let chunks' := updateFirstChunk chunk_id
            (fun c => { c with status := TransferStatus.COMPLETED }) transfer.chunks
          let transfer' := { transfer with chunks := chunks' }
          if chunks'.all (fun c => c.status = TransferStatus.COMPLETED) then
            let transfer'' := { transfer' with status := TransferStatus.COMPLETED }
            let usage2 := (List.range chunks'.length).foldl
              (fun u i => aerase (transferKey file_id i) u) usage1
            ({ node with
                used_storage := node.used_storage + transfer.total_size
                stored_files := ainsert file_id transfer'' node.stored_files
                active_transfers := aerase file_id node.active_transfers
                active_bandwidth_usage := usage2 },
             true)
          else
            ({ node with
                active_transfers := ainsert file_id transfer' node.active_transfers
                active_bandwidth_usage := usage1 },
             true)

/-- Embeds `StorageVirtualNode.complete_chunk_transfer`: delete the
transfer key from `active_bandwidth_usage` if present. -/
def complete_chunk_transfer (node : StorageVirtualNode) (file_id : String)
    (chunk_id : Nat) : StorageVirtualNode :=
  let key := transferKey file_id chunk_id
  match List.lookup key node.active_bandwidth_usage with
  | some _ =>
      { node with active_bandwidth_usage := aerase key node.active_bandwidth_usage }
  | none => node

/-- Well-formedness of the bandwidth bookkeeping: unique transfer keys,
non-negative per-transfer reservations, and total usage within the link
capacity. This is the state invariant of claim C1. -/
def BandwidthInv (node : StorageVirtualNode) : Prop :=
  (node.active_bandwidth_usage.map Prod.fst).Nodup ∧
  (∀ p ∈ node.active_bandwidth_usage, 0 ≤ p.2) ∧
  networkUtilization node ≤ node.bandwidth

instance (node : StorageVirtualNode) : Decidable (BandwidthInv node) := by
  unfold BandwidthInv; infer_instance

/-! ## Distributed storage node (`src/distributed/distributed_node.py`)

State and the `STORE_CHUNK` / `GET_CHUNK` handlers. The handlers raise
`ValueError` on bad input, which `_handle_message` turns into an ERROR
reply; that path is the `error` constructor below. -/

/-- Mutable state of `DistributedStorageNode` relevant to the claims. -/
structure DistributedStorageNode where
  node_id : String
  storage_capacity : Nat
  stored_chunks : List (String × FileChunk) := []
  used_storage : Nat := 0
deriving DecidableEq, Repr

/-- Reply of the STORE_CHUNK handler: a SUCCESS message carrying
`file_id`, `chunk_id`, `checksum`, `size`, or an ERROR reply. -/
inductive StoreReply
  | success (file_id : String) (chunk_id : Nat) (checksum : String) (size : Nat)
  | error (msg : String)
deriving DecidableEq, Repr

/-- Chunk key `f"{file_id}_{chunk_id}"` of the distributed node. -/
def chunkKey (file_id : String) (chunk_id : Nat) : String :=
  file_id ++ "_" ++ toString chunk_id

/-- Embeds `DistributedStorageNode._handle_store_chunk`. The payload is
`message.data.get('_binary_data')`; `if not chunk_data` rejects both a
missing and an empty payload. Note that the source performs no capacity
check: it stores the chunk and adds `len(chunk_data)` to `used_storage`
unconditionally, replacing any chunk already stored under the key. -/
def handle_store_chunk (hash : Bytes → String) (node : DistributedStorageNode)
    (file_id : String) (chunk_id : Nat) (chunk_data : Option Bytes) :
    DistributedStorageNode × StoreReply :=
  match chunk_data with
  | none => (node, StoreReply.error "No chunk data provided")
  | some d =>
    if d.isEmpty then (node, StoreReply.error "No chunk data provided")
    else
      let checksum := hash d
      let chunk : FileChunk :=
        { chunk_id := chunk_id
          size := d.length
          data := d
          checksum := checksum
          status := TransferStatus.COMPLETED }
      let key := chunkKey file_id chunk_id
      let node' :=
        { node with
            stored_chunks := ainsert key chunk node.stored_chunks
            used_storage := node.used_storage + d.length }
      (node', StoreReply.success file_id chunk_id checksum d.length)

/-- Embeds `DistributedStorageNode._handle_get_chunk`: reply CHUNK_DATA
with the stored chunk's checksum and size plus the chunk bytes as binary
payload, or an ERROR reply when the key is unknown. -/
def handle_get_chunk (node : DistributedStorageNode) (file_id : String)
    (chunk_id : Nat) : Except String (String × Nat × Bytes) :=
  let key := chunkKey file_id chunk_id
  match List.lookup key node.stored_chunks with
  | none => Except.error "Chunk not found"
  | some chunk => Except.ok (chunk.checksum, chunk.size, chunk.data)

/-- Fold of several STORE_CHUNK requests, used to express "no
intervening store to that key" in claim C5. -/
def apply_stores (hash : Bytes → String) (node : DistributedStorageNode)
    (ops : List (String × Nat × Bytes)) : DistributedStorageNode :=
  ops.foldl (fun n op => (handle_store_chunk hash n op.1 op.2.1 (some op.2.2)).1) node

/-- Total byte size of the chunks a distributed node actually holds. -/
def storedBytes (node : DistributedStorageNode) : Nat :=
  (node.stored_chunks.map (fun p => p.2.size)).sum

/-! ## Heartbeat monitor (`src/monitoring/heartbeat_monitor.py`)

Timestamps (`datetime.now()`) are integers; `failure_timeout` is the
config value `monitoring.failure_timeout` (default 30). Callback
invocations are modelled as an emitted event list. -/

/-- Failure/recovery events delivered to the registered callbacks. -/
inductive HBEvent
  | failure (node_id : String)
  | recovery (node_id : String)
deriving DecidableEq, Repr

/-- Mutable state of `HeartbeatMonitor` relevant to the claims (the
bounded per-node history is not). -/
structure HeartbeatMonitor where
  last_heartbeat : List (String × Int) := []
  healthy_nodes : List String := []
  failed_nodes : List String := []
deriving DecidableEq, Repr

/-- Embeds `HeartbeatMonitor._mark_node_failed`: move to FAILED and fire
the failure callback. -/
def mark_node_failed (m : HeartbeatMonitor) (node_id : String) :
    HeartbeatMonitor × HBEvent :=
  ({ m with
      healthy_nodes := sdiscard node_id m.healthy_nodes
      failed_nodes := sadd node_id m.failed_nodes },
   HBEvent.failure node_id)

/-- Embeds `HeartbeatMonitor._mark_node_recovered`: move to HEALTHY and
fire the recovery callback. -/
def mark_node_recovered (m : HeartbeatMonitor) (node_id : String) :
    HeartbeatMonitor × HBEvent :=
  ({ m with
      failed_nodes := sdiscard node_id m.failed_nodes
      healthy_nodes := sadd node_id m.healthy_nodes },
   HBEvent.recovery node_id)

/-- Embeds `HeartbeatMonitor.receive_heartbeat` at time `now` (the
heartbeat-history bookkeeping is omitted; it affects no claim). -/
def receive_heartbeat (m : HeartbeatMonitor) (node_id : String) (now : Int) :
    HeartbeatMonitor × List HBEvent :=
  let m1 := { m with last_heartbeat := ainsert node_id now m.last_heartbeat }
  if node_id ∈ m1.failed_nodes then
    let (m2, e) := mark_node_recovered m1 node_id
    (m2, [e])
  else if node_id ∈ m1.healthy_nodes then (m1, [])
  else ({ m1 with healthy_nodes := sadd node_id m1.healthy_nodes }, [])

/-- One iteration of the loop body of `HeartbeatMonitor._check_all_nodes`
for the snapshot entry `(node_id, last_hb)`. -/
def check_node_step (now failure_timeout : Int) (m : HeartbeatMonitor)
    (entry : String × Int) : HeartbeatMonitor × List HBEvent :=
  let node_id := entry.1
  let last_hb := entry.2
  if now - last_hb > failure_timeout then
    if node_id ∉ m.failed_nodes then
      let (m', e) := mark_node_failed m node_id
      (m', [e])
    else (m, [])
  else
    if node_id ∈ m.failed_nodes then
      let (m', e) := mark_node_recovered m node_id
      (m', [e])
    else if node_id ∉ m.healthy_nodes then
      ({ m with healthy_nodes := sadd node_id m.healthy_nodes }, [])
    else (m, [])

/-- Recursion over the snapshot `list(self.last_heartbeat.items())`. -/
def check_go (now failure_timeout : Int) (m : HeartbeatMonitor)
    (evs : List HBEvent) : List (String × Int) → HeartbeatMonitor × List HBEvent
  | [] => (m, evs)
  | entry :: rest =>
    let (m', es) := check_node_step now failure_timeout m entry
    check_go now failure_timeout m' (evs ++ es) rest

/-- Embeds `HeartbeatMonitor._check_all_nodes` run at time `now`. -/
def check_all_nodes (m : HeartbeatMonitor) (now failure_timeout : Int) :
    HeartbeatMonitor × List HBEvent :=
  check_go now failure_timeout m [] m.last_heartbeat

/-! ## Placement policy (`ReplicationManager.select_replica_nodes`)

Candidate nodes carry the fields the policy reads. Python's
`random.sample(candidates, count)` is an opaque parameter `sample`; the
only fact used about it is that its result is a subpermutation (a
selection of distinct positions) of its input, which `random.sample`
guarantees. `list.sort(key=..., reverse=True)` is a stable descending
sort, modelled by `List.mergeSort`. -/

/-- The fields of a candidate `StorageVirtualNode` read by the placement
policy. Storage counters are Python ints, hence `Int`. -/
structure PNode where
  node_id : String
  total_storage : Int
  used_storage : Int
deriving DecidableEq, Repr

instance : Inhabited PNode := ⟨{ node_id := "", total_storage := 0, used_storage := 0 }⟩

/-- Free space `node.total_storage - node.used_storage`, the sort key. -/
def free_space (n : PNode) : Int := n.total_storage - n.used_storage

/-- The source's `candidates.sort(key=lambda n: total - used, reverse=True)`:
stable sort by descending free space (Python's `list.sort` is stable;
`List.insertionSort` with this relation has the same stable descending
order). -/
def sort_by_free_desc (l : List PNode) : List PNode :=
  l.insertionSort (fun a b => free_space b ≤ free_space a)

/-- The loop `for i in range(0, len(candidates), step)` of the diverse
strategy, with its `if len(selected) >= count: break` guard. `fuel`
bounds the iteration count (the Python loop makes at most `len(l)`
iterations since `step ≥ 1`). -/
def diverse_go (l : List PNode) (step count : Nat) :
    Nat → Nat → List PNode → List PNode
  | 0, _, selected => selected
  | fuel + 1, i, selected =>
    if h : i < l.length then
      if count ≤ selected.length then selected
      else diverse_go l step count fuel (i + step) (selected ++ [l.get ⟨i, h⟩])
    else selected

/-- The `while len(selected) < count and len(selected) < len(candidates)`
fill loop of the diverse strategy: append the first candidate not yet
selected. `fuel` bounds the iterations; the Python loop spins forever
when no such candidate exists, which cannot happen on duplicate-free
input. -/
def fill_go (l : List PNode) (count : Nat) : Nat → List PNode → List PNode
  | 0, selected => selected
  | fuel + 1, selected =>
    if selected.length < count ∧ selected.length < l.length then
      match l.find? (fun n => decide (n ∉ selected)) with
      | some n => fill_go l count fuel (selected ++ [n])
      | none => selected
    else selected

/-- Embeds `ReplicationManager.select_replica_nodes`. `strategy` is
`config.replication.placement_strategy` (default `"diverse"`), `sample`
stands for `random.sample`. -/
def select_replica_nodes (strategy : String) (sample : List PNode → Nat → List PNode)
    (available_nodes : List PNode) (count : Nat) (exclude_nodes : List String)
    (chunk_size : Int) : List PNode :=
  let candidates := available_nodes.filter
    (fun node => decide (node.node_id ∉ exclude_nodes) &&
                 decide (chunk_size ≤ free_space node))
  if candidates.length < count then candidates
  else if strategy = "random" then sample candidates count
  else if strategy = "least_loaded" then (sort_by_free_desc candidates).take count
  else if strategy = "diverse" then
    let sorted := sort_by_free_desc candidates
    let step := max 1 (sorted.length / count)
    let selected := diverse_go sorted step count sorted.length 0 []
    fill_go sorted count count selected
  else sample candidates count

/-- Fuel-based recursion for `take_every_kth`; the fuel only needs to
dominate the list length. -/
def take_every_aux (k : Nat) : Nat → List PNode → List PNode
  | 0, _ => []
  | _, [] => []
  | fuel + 1, x :: xs => x :: take_every_aux k fuel (xs.drop (k - 1))

/-- Modelled from the spec: the claim C8 description of the diverse
strategy, "take every k-th element of the sorted candidate list"
(indices 0, k, 2k, ...). Compared against the source's loop. -/
def take_every_kth (l : List PNode) (k : Nat) : List PNode :=
  take_every_aux k l.length l

/-! ## Replication manager (`src/replication/replication_manager.py`)

The chunk-location map is keyed by `f"{file_id}:{chunk_id}"` in the
source and the key is split back into the pair by
`find_chunks_on_node`; the embedding keys the map by the pair directly
(identical for file ids not containing a colon). `min_factor` and
`default_factor` are `config.replication` values (defaults 2 and 3). -/

def replication_min_factor : Nat := 2

def replication_default_factor : Nat := 3

/-- Mutable state of `ReplicationManager` relevant to the claims. The
queue entries are `(file_id, chunk_id, needed)`. -/
structure ReplicationState where
  chunk_locations : List ((String × Nat) × List String) := []
  replication_queue : List (String × Nat × Int) := []
  under_replicated_chunks : Nat := 0
deriving DecidableEq, Repr

/-- Pair-keyed dict assignment for the chunk-location map. -/
def cinsert (k : String × Nat) (v : List String) :
    List ((String × Nat) × List String) → List ((String × Nat) × List String)
  | [] => [(k, v)]
  | (k', v') :: rest => if k' = k then (k, v) :: rest else (k', v') :: cinsert k v rest

/-- Pair-keyed dict lookup for the chunk-location map. -/
def clookup (k : String × Nat) :
    List ((String × Nat) × List String) → Option (List String)
  | [] => none
  | (k', v') :: rest => if k' = k then some v' else clookup k rest

/-- Embeds `ReplicationManager.register_chunk`:
`self.chunk_locations[chunk_key].add(node_id)` on a `defaultdict(set)`. -/
def register_chunk (st : ReplicationState) (file_id : String) (chunk_id : Nat)
    (node_id : String) : ReplicationState :=
  let key := (file_id, chunk_id)
  match clookup key st.chunk_locations with
  | some s => { st with chunk_locations := cinsert key (sadd node_id s) st.chunk_locations }
  | none => { st with chunk_locations := st.chunk_locations ++ [(key, [node_id])] }

/-- Embeds `ReplicationManager.unregister_chunk`: discard the node from
the replica set when the key exists; count the chunk as
under-replicated when the remaining set is smaller than `min_factor`. -/
def unregister_chunk (min_factor : Nat) (st : ReplicationState) (file_id : String)
    (chunk_id : Nat) (node_id : String) : ReplicationState :=
  let key := (file_id, chunk_id)
  match clookup key st.chunk_locations with
  | none => st
  | some s =>
    let s' := sdiscard node_id s
    let st' := { st with chunk_locations := cinsert key s' st.chunk_locations }
    if s'.length < min_factor then
      { st' with under_replicated_chunks := st'.under_replicated_chunks + 1 }
    else st'

/-- Embeds `ReplicationManager.get_chunk_locations`. -/
def get_chunk_locations (st : ReplicationState) (file_id : String)
    (chunk_id : Nat) : List String :=
  (clookup (file_id, chunk_id) st.chunk_locations).getD []

/-- Embeds `ReplicationManager.get_replication_count`. -/
def get_replication_count (st : ReplicationState) (file_id : String)
    (chunk_id : Nat) : Nat :=
  (get_chunk_locations st file_id chunk_id).length

/-- Embeds `ReplicationManager.is_under_replicated`: the count is
compared against `config.replication.min_factor`. -/
def is_under_replicated (min_factor : Nat) (st : ReplicationState)
    (file_id : String) (chunk_id : Nat) : Bool :=
  get_replication_count st file_id chunk_id < min_factor

/-- Embeds `ReplicationManager.find_chunks_on_node`: all chunk keys
whose replica set contains the node, in map order. -/
def find_chunks_on_node (st : ReplicationState) (node_id : String) :
    List (String × Nat) :=
  (st.chunk_locations.filter (fun p => decide (node_id ∈ p.2))).map Prod.fst

/-- Embeds `ReplicationManager.handle_node_failure`: unregister the
failed replica of every chunk held by the failed node and collect (and
queue) the chunks that `is_under_replicated` now flags. Returns the new
state and the list returned by the source. -/
def handle_node_failure (min_factor default_factor : Nat) (st : ReplicationState)
    (failed_node_id : String) : ReplicationState × List (String × Nat) :=
  let chunks_on_node := find_chunks_on_node st failed_node_id
  chunks_on_node.foldl
    (fun acc fc =>
      let st1 := unregister_chunk min_factor acc.1 fc.1 fc.2 failed_node_id
      if is_under_replicated min_factor st1 fc.1 fc.2 then
        let needed : Int :=
          (default_factor : Int) - (get_replication_count st1 fc.1 fc.2 : Int)
        let st2 := { st1 with
          replication_queue := st1.replication_queue ++ [(fc.1, fc.2, needed)] }
        (st2, acc.2 ++ [fc])
      else (st1, acc.2))
    (st, [])

/-! ## Wire protocol (`src/network/protocol.py`)

`encode_message` / `decode_message` of `ProtocolHandler`. The JSON
envelope `message.to_json().encode('utf-8')` is carried as opaque bytes;
theorems that speak about the `Message` object are parameterised by the
serialisation pair (`Message.to_json` / `Message.from_json`), assumed
only to round-trip. `struct.pack('>I', n)` raises for `n ≥ 2^32`, hence
`encode_message` returns `Except`. -/

def HEADER_SIZE : Nat := 4

def JSON_LENGTH_SIZE : Nat := 4

def MAX_MESSAGE_SIZE : Nat := 100 * 1024 * 1024

/-- Big-endian 4-byte encoding, `struct.pack('>I', n)` for `n < 2^32`. -/
def be32 (n : Nat) : Bytes :=
  [n / 2 ^ 24 % 256, n / 2 ^ 16 % 256, n / 2 ^ 8 % 256, n % 256]

/-- Big-endian read of the first four bytes, `struct.unpack('>I', ...)`. -/
def read_be32 (l : Bytes) : Nat :=
  match l with
  | b0 :: b1 :: b2 :: b3 :: _ => b0 * 2 ^ 24 + b1 * 2 ^ 16 + b2 * 2 ^ 8 + b3
  | _ => 0

/-- Python truthiness of the optional binary payload: `None` and `b""`
are falsy. -/
def pyTruthy (binary_data : Option Bytes) : Bool :=
  match binary_data with
  | none => false
  | some l => !l.isEmpty

/-- Embeds `ProtocolHandler.encode_message` applied to an already
serialised envelope `json_bytes`. `total_length` counts the JSON length
prefix, the JSON bytes, and the binary payload; the frame is
`pack(total) + pack(json_length) + json + binary`. `struct.pack`
overflow (≥ 2^32) is the `error` case. -/
def encode_message (json_bytes : Bytes) (binary_data : Option Bytes) :
    Except String Bytes :=
  let json_length := json_bytes.length
  let binary_length := if pyTruthy binary_data then (binary_data.getD []).length else 0
  let total_length := JSON_LENGTH_SIZE + json_length + binary_length
  if total_length < 2 ^ 32 ∧ json_length < 2 ^ 32 then
    if pyTruthy binary_data then
      Except.ok (be32 total_length ++ be32 json_length ++ json_bytes ++ binary_data.getD [])
    else
      Except.ok (be32 total_length ++ be32 json_length ++ json_bytes)
  else Except.error "argument out of range"

/-- Embeds `ProtocolHandler.decode_message`. The first component of the
result is the envelope's JSON bytes (which the source feeds to
`Message.from_json`), the second the optional binary payload. The
`ValueError`s of the source are the `error` cases. -/
def decode_message (data : Bytes) : Except String (Bytes × Option Bytes) :=
  if data.length < HEADER_SIZE then Except.error "Data too short for protocol header"
  else
    let total_length := read_be32 data
    if total_length > MAX_MESSAGE_SIZE then Except.error "Message too large"
    else
      let payload := (data.drop HEADER_SIZE).take total_length
      if payload.length < JSON_LENGTH_SIZE then
        Except.error "Payload too short for JSON length header"
      else
        let json_length := read_be32 payload
        if (json_length : Int) > (total_length : Int) - (JSON_LENGTH_SIZE : Int) then
          Except.error "Invalid JSON length in payload"
        else
          let json_bytes := (payload.drop JSON_LENGTH_SIZE).take json_length
          let binary_data :=
            if JSON_LENGTH_SIZE + json_length < payload.length then
              some (payload.drop (JSON_LENGTH_SIZE + json_length))
            else none
          Except.ok (json_bytes, binary_data)

/-- Payload as the decoder reproduces it: a non-empty payload survives,
`None` and `b""` both come back as `None`. -/
def normalizedPayload (binary_data : Option Bytes) : Option Bytes :=
  if pyTruthy binary_data then binary_data else none

/-! ## Concrete evaluation scenarios

The replication state below is the setup of the repository's own test
`tests/test_replication.py::TestNodeFailure::test_handle_node_failure`:
three chunks of "file-1", each replicated on node-1, node-2 and node-3. -/

def c3_test_state : ReplicationState :=
  (List.range 3).foldl
    (fun st cid =>
      register_chunk
        (register_chunk (register_chunk st "file-1" cid "node-1") "file-1" cid "node-2")
        "file-1" cid "node-3")
    {}

/-- A storage node that would be picked as a re-replication recipient:
it holds no active transfer for any file. -/
def c3_fresh_target : StorageVirtualNode :=
  { node_id := "node-4", total_storage := 1000, bandwidth := 100 }

/-- An idle storage node: no active transfers and an empty bandwidth map. -/
def c1_node : StorageVirtualNode :=
  { node_id := "node-1", total_storage := 100, bandwidth := 100 }

/-- First chunk of the two-chunk transfer used to evaluate
`process_chunk_transfer` on a successful non-final chunk. -/
def c1_chunk0 : FileChunk :=
  { chunk_id := 0, size := 4, data := [], checksum := "" }

/-- Second (still pending) chunk of that transfer. -/
def c1_chunk1 : FileChunk :=
  { chunk_id := 1, size := 4, data := [], checksum := "" }

/-- A pending two-chunk file transfer for file "f". -/
def c1_transfer : FileTransfer :=
  { file_id := "f", file_name := "f.bin", total_size := 8,
    chunks := [c1_chunk0, c1_chunk1] }

/-- A node with bandwidth 100 and the transfer above in flight, its
bandwidth map still empty. -/
def c1_node2 : StorageVirtualNode :=
  { node_id := "node-1", total_storage := 100, bandwidth := 100,
    active_transfers := [("f", c1_transfer)] }

/-! ## Theorems

Helper lemmas first, then one theorem (plus witness or counterexample)
per claim. -/

theorem lookup_ainsert_self {β : Type} (k : String) (v : β) (l : List (String × β)) :
    List.lookup k (ainsert k v l) = some v := by
  induction l with
  | nil => simp [ainsert, List.lookup]
  | cons p rest ih =>
    obtain ⟨k', v'⟩ := p
    by_cases h : k' = k
    · simp [ainsert, h, List.lookup]
    · simp only [ainsert, if_neg h, List.lookup]
      have hbeq : (k == k') = false := by
        simp [beq_iff_eq]; exact fun hh => h hh.symm
      simp [hbeq, ih]

theorem lookup_ainsert_ne {β : Type} (k k' : String) (v : β) (l : List (String × β))
    (h : k' ≠ k) : List.lookup k' (ainsert k v l) = List.lookup k' l := by
  have hkk : (k' == k) = false := by simp [beq_iff_eq, h]
  induction l with
  | nil => simp [ainsert, List.lookup, hkk]
  | cons p rest ih =>
    obtain ⟨k₀, v₀⟩ := p
    by_cases h0 : k₀ = k
    · subst h0
      simp [ainsert, List.lookup, hkk]
    · simp only [ainsert, if_neg h0, List.lookup]
      cases hb : (k' == k₀) <;> simp [ih]

/-! ### Chunker lemmas (claim C4) -/

theorem take_chunk_eq {α : Type} (l : List α) (s k : Nat) :
    (l.drop s).take (min (s + k) l.length - s) = (l.drop s).take k := by
  rw [List.take_eq_take]
  simp only [List.length_drop]
  omega

theorem join_chunks {α : Type} (k : Nat) :
    ∀ (n : Nat) (l : List α), l.length ≤ n * k →
      ((List.range n).map fun i => (l.drop (i * k)).take k).flatten = l := by
  intro n
  induction n with
  | zero =>
    intro l hl
    simp at hl
    simp [hl]
  | succ n ih =>
    intro l hl
    rw [List.range_succ_eq_map]
    simp only [List.map_cons, List.map_map, List.flatten_cons]
    have hrw : (List.map ((fun i => (l.drop (i * k)).take k) ∘ Nat.succ) (List.range n)) =
        (List.range n).map fun i => ((l.drop k).drop (i * k)).take k := by
      apply List.map_congr_left
      intro i _
      simp only [Function.comp]
      rw [List.drop_drop]
      congr 2
      simp [Nat.succ_mul]
      ring
    have hnk : (n + 1) * k = n * k + k := by ring
    rw [hrw, ih (l.drop k) (by simp; omega)]
    simp

theorem le_ceil_mul {L k : Nat} (hk : 0 < k) : L ≤ ((L + k - 1) / k) * k := by
  have h1 := Nat.div_add_mod (L + k - 1) k
  have h2 : (L + k - 1) % k < k := Nat.mod_lt _ hk
  have h3 : ((L + k - 1) / k) * k = k * ((L + k - 1) / k) := Nat.mul_comm _ _
  rw [h3]
  generalize hm : k * ((L + k - 1) / k) = m at h1 ⊢
  omega

theorem ceil_pred_mul_lt {L k : Nat} (hk : 0 < k) (hL : 0 < L) :
    ((L + k - 1) / k - 1) * k < L := by
  have h1 := Nat.div_add_mod (L + k - 1) k
  have h2 : (L + k - 1) % k < k := Nat.mod_lt _ hk
  rw [Nat.sub_one_mul, Nat.mul_comm]
  generalize hm : k * ((L + k - 1) / k) = m at h1 ⊢
  omega

theorem generate_chunks_data (hash : Bytes → String) (file_data : Bytes) :
    (generate_chunks hash file_data).map FileChunk.data =
      (List.range ((file_data.length + calculate_chunk_size file_data.length - 1) /
          calculate_chunk_size file_data.length)).map
        (fun i => (file_data.drop (i * calculate_chunk_size file_data.length)).take
          (calculate_chunk_size file_data.length)) := by
  unfold generate_chunks
  simp only [List.map_map]
  apply List.map_congr_left
  intro i _
  simp only [Function.comp]
  rw [Nat.mul_comm i _] at *
  exact take_chunk_eq file_data _ _

theorem chunk_size_pos (file_size : Nat) : 0 < calculate_chunk_size file_size := by
  unfold calculate_chunk_size small_chunk_size medium_chunk_size large_chunk_size
  split <;> norm_num
  split <;> norm_num

theorem generate_chunks_getD (hash : Bytes → String) (file_data : Bytes) (i : Nat)
    (hi : i < (file_data.length + calculate_chunk_size file_data.length - 1) /
        calculate_chunk_size file_data.length) :
    (generate_chunks hash file_data).getD i default =
      (let cs := calculate_chunk_size file_data.length
       let chunk_data := (file_data.drop (i * cs)).take
          (min (i * cs + cs) file_data.length - i * cs)
       { chunk_id := i
         size := chunk_data.length
         data := chunk_data
         checksum := hash chunk_data : FileChunk }) := by
  unfold generate_chunks
  rw [List.getD_eq_getElem?_getD, List.getElem?_map, List.getElem?_range hi]
  simp

/-- C4: the chunker picks the chunk size from the file size (512 KiB
below 10 MiB, 2 MiB from 10 MiB up to but below 100 MiB, 10 MiB
otherwise) and produces exactly the ceiling of `total_size / chunk_size`
chunks with ids `0..n-1` whose concatenation is the original buffer;
every chunk but the last has exactly `chunk_size` bytes and the last has
`total_size mod chunk_size` bytes, or the full `chunk_size` when the
size is a positive multiple of `chunk_size`. -/
theorem C4_chunking (hash : Bytes → String) (file_data : Bytes) :
    (generate_chunks hash file_data).length =
        (file_data.length + calculate_chunk_size file_data.length - 1) /
          calculate_chunk_size file_data.length ∧
    (generate_chunks hash file_data).map FileChunk.chunk_id =
        List.range ((file_data.length + calculate_chunk_size file_data.length - 1) /
          calculate_chunk_size file_data.length) ∧
    ((generate_chunks hash file_data).map FileChunk.data).flatten = file_data ∧
    (∀ i, i + 1 < (generate_chunks hash file_data).length →
      ((generate_chunks hash file_data).getD i default).size =
        calculate_chunk_size file_data.length) ∧
    (0 < file_data.length →
      ((generate_chunks hash file_data).getD
          ((generate_chunks hash file_data).length - 1) default).size =
        (if file_data.length % calculate_chunk_size file_data.length = 0 then
          calculate_chunk_size file_data.length
        else file_data.length % calculate_chunk_size file_data.length)) ∧
    (file_data.length < 10 * 1024 * 1024 →
      calculate_chunk_size file_data.length = 512 * 1024) ∧
    (10 * 1024 * 1024 ≤ file_data.length → file_data.length < 100 * 1024 * 1024 →
      calculate_chunk_size file_data.length = 2 * 1024 * 1024) ∧
    (100 * 1024 * 1024 ≤ file_data.length →
      calculate_chunk_size file_data.length = 10 * 1024 * 1024) := by
  have hcs : 0 < calculate_chunk_size file_data.length := chunk_size_pos _
  have hlen : (generate_chunks hash file_data).length =
      (file_data.length + calculate_chunk_size file_data.length - 1) /
        calculate_chunk_size file_data.length := by
    simp [generate_chunks]
  refine ⟨hlen, ?_, ?_, ?_, ?_, ?_, ?_, ?_⟩
  · unfold generate_chunks
    simp only [List.map_map]
    exact (List.map_congr_left (fun i _ => rfl)).trans (List.map_id _)
  · rw [generate_chunks_data]
    exact join_chunks _ _ _ (le_ceil_mul hcs)
  · intro i hi
    rw [hlen] at hi
    rw [generate_chunks_getD hash file_data i (by omega)]
    simp only [List.length_take, List.length_drop]
    have hmul : (i + 1) * calculate_chunk_size file_data.length ≤
        ((file_data.length + calculate_chunk_size file_data.length - 1) /
          calculate_chunk_size file_data.length - 1) *
          calculate_chunk_size file_data.length :=
      Nat.mul_le_mul_right _ (by omega)
    have hL : 0 < file_data.length := by
      by_contra hc
      have h0 : file_data.length = 0 := by omega
      rw [h0] at hi hcs
      rw [Nat.div_eq_of_lt (by omega)] at hi
      omega
    have hlt := ceil_pred_mul_lt (L := file_data.length) hcs hL
    have hsucc : (i + 1) * calculate_chunk_size file_data.length =
        i * calculate_chunk_size file_data.length +
          calculate_chunk_size file_data.length := by ring
    omega
  · intro hL
    have hn1 : 1 ≤ (file_data.length + calculate_chunk_size file_data.length - 1) /
        calculate_chunk_size file_data.length := by
      rw [Nat.one_le_div_iff hcs]
      omega
    rw [hlen]
    rw [generate_chunks_getD hash file_data _ (by omega)]
    simp only [List.length_take, List.length_drop]
    have hlt := ceil_pred_mul_lt (L := file_data.length) hcs hL
    have hle := le_ceil_mul (L := file_data.length) hcs
    set cs := calculate_chunk_size file_data.length with hcsdef
    set n := (file_data.length + cs - 1) / cs with hndef
    have hab : (n - 1) * cs + cs = n * cs := by
      have hn : n - 1 + 1 = n := by omega
      calc (n - 1) * cs + cs = (n - 1 + 1) * cs := by ring
        _ = n * cs := by rw [hn]
    set s := file_data.length - (n - 1) * cs with hsdef
    have hmod : file_data.length % cs = s % cs := by
      have hrepr : file_data.length = s + (n - 1) * cs := by omega
      rw [hrepr, Nat.add_mul_mod_self_right]
    have hs_pos : 0 < s := by omega
    have hs_le : s ≤ cs := by omega
    rw [hmod]
    rcases Nat.lt_or_ge s cs with hlt2 | hge2
    · rw [Nat.mod_eq_of_lt hlt2, if_neg (by omega)]
      omega
    · have hseq : s = cs := by omega
      rw [hseq, Nat.mod_self, if_pos rfl]
      omega
  · intro h
    unfold calculate_chunk_size small_file_threshold small_chunk_size
    rw [if_pos (by omega)]
  · intro h1 h2
    unfold calculate_chunk_size small_file_threshold medium_file_threshold
      medium_chunk_size
    rw [if_neg (by omega), if_pos (by omega)]
  · intro h
    unfold calculate_chunk_size small_file_threshold medium_file_threshold
      large_chunk_size
    rw [if_neg (by omega), if_neg (by omega)]

/-- Witness for C4 at a concrete 3-byte buffer: one chunk of 3 bytes. -/
theorem C4_chunking_witness :
    (generate_chunks (fun _ => "h") [1, 2, 3]).length = 1 ∧
    ((generate_chunks (fun _ => "h") [1, 2, 3]).map FileChunk.data).flatten =
      [1, 2, 3] ∧
    ((generate_chunks (fun _ => "h") [1, 2, 3]).getD 0 default).size = 3 := by
  obtain ⟨h1, h2, h3, h4, h5, h6, h7, h8⟩ := C4_chunking (fun _ => "h") [1, 2, 3]
  refine ⟨?_, h3, ?_⟩
  · rw [h1]; decide
  · have h5c := h5 (by decide)
    rw [h1] at h5c
    exact h5c.trans (by decide)

/-! ### Distributed node lemmas (claims C2, C5, C9) -/

theorem ainsert_ainsert_same {β : Type} (k : String) (v w : β) (l : List (String × β)) :
    ainsert k v (ainsert k w l) = ainsert k v l := by
  induction l with
  | nil => simp [ainsert]
  | cons p rest ih =>
    obtain ⟨k', v'⟩ := p
    by_cases h : k' = k
    · simp [ainsert, h]
    · simp [ainsert, h, ih]

theorem storedBytes_ainsert_none (k : String) (ch : FileChunk)
    (l : List (String × FileChunk)) (h : List.lookup k l = none) :
    ((ainsert k ch l).map (fun p => p.2.size)).sum =
      (l.map (fun p => p.2.size)).sum + ch.size := by
  induction l with
  | nil => simp [ainsert]
  | cons p rest ih =>
    obtain ⟨k', v'⟩ := p
    simp only [List.lookup] at h
    by_cases hk : k' = k
    · subst hk
      simp at h
    · have hbeq : (k == k') = false := by
        simp [beq_iff_eq]; exact fun hh => hk hh.symm
      rw [hbeq] at h
      simp only [ainsert, if_neg hk, List.map_cons, List.sum_cons, ih h]
      omega

theorem isEmpty_false_of_ne_nil {l : Bytes} (h : l ≠ []) : l.isEmpty = false := by
  cases l with
  | nil => exact absurd rfl h
  | cons a t => rfl

/-- C2 counterexample: a node with capacity 10 bytes accepts a 20-byte
STORE_CHUNK with a SUCCESS reply and ends with `used_storage = 20 >
capacity`, contradicting the claimed INSUFFICIENT_STORAGE rejection and
the claimed `used_bytes ≤ capacity` invariant. -/
theorem C2_counterexample :
    (handle_store_chunk (fun _ => "h")
        { node_id := "n1", storage_capacity := 10 } "f" 0
        (some (List.replicate 20 7))).2 = StoreReply.success "f" 0 "h" 20 ∧
    (handle_store_chunk (fun _ => "h")
        { node_id := "n1", storage_capacity := 10 } "f" 0
        (some (List.replicate 20 7))).1.used_storage = 20 ∧
    ¬ ((handle_store_chunk (fun _ => "h")
        { node_id := "n1", storage_capacity := 10 } "f" 0
        (some (List.replicate 20 7))).1.used_storage ≤
      (handle_store_chunk (fun _ => "h")
        { node_id := "n1", storage_capacity := 10 } "f" 0
        (some (List.replicate 20 7))).1.storage_capacity) := by
  refine ⟨?_, ?_, ?_⟩ <;> decide

/-- C2 as amended: the distributed STORE_CHUNK handler performs no
capacity check at all; every request with a non-empty payload is stored
(replacing any chunk under the same key) and `used_storage` grows by
`len(payload)` unconditionally, so `used_bytes ≤ capacity` need not hold
after the operation. The claimed capacity check exists only in
`StorageVirtualNode.initiate_file_transfer`, which returns `None` and
leaves the node unchanged when `used_storage + file_size >
total_storage`. -/
theorem C2_store_unconditional (hash : Bytes → String) (node : DistributedStorageNode)
    (file_id : String) (chunk_id : Nat) (d : Bytes) (hd : d ≠ []) :
    (handle_store_chunk hash node file_id chunk_id (some d)).2 =
      StoreReply.success file_id chunk_id (hash d) d.length ∧
    (handle_store_chunk hash node file_id chunk_id (some d)).1.used_storage =
      node.used_storage + d.length ∧
    (handle_store_chunk hash node file_id chunk_id (some d)).1.stored_chunks =
      ainsert (chunkKey file_id chunk_id)
        { chunk_id := chunk_id, size := d.length, data := d, checksum := hash d,
          status := TransferStatus.COMPLETED } node.stored_chunks ∧
    (∀ (vhash : Bytes → String) (vnode : StorageVirtualNode) (fid fname : String)
        (data : Bytes) (src : Option String) (rf : Nat),
      vnode.used_storage + data.length > vnode.total_storage →
      initiate_file_transfer vhash vnode fid fname data src rf = (vnode, none)) := by
  have he := isEmpty_false_of_ne_nil hd
  refine ⟨?_, ?_, ?_, ?_⟩
  · simp [handle_store_chunk, he]
  · simp [handle_store_chunk, he]
  · simp [handle_store_chunk, he]
  · intro vhash vnode fid fname data src rf hover
    simp [initiate_file_transfer, hover]

/-- Witness for C2 as amended: a concrete store of one byte on an empty
node with capacity 100. -/
theorem C2_store_unconditional_witness :
    (([1] : Bytes) ≠ []) ∧
    (handle_store_chunk (fun _ => "h")
        { node_id := "n1", storage_capacity := 100 } "f" 0 (some [1])).1.used_storage =
      ({ node_id := "n1", storage_capacity := 100 } : DistributedStorageNode).used_storage
        + ([1] : Bytes).length :=
  ⟨by decide,
   (C2_store_unconditional (fun _ => "h")
      { node_id := "n1", storage_capacity := 100 } "f" 0 [1] (by decide)).2.1⟩

theorem handle_store_chunk_some (hash : Bytes → String) (node : DistributedStorageNode)
    (file_id : String) (chunk_id : Nat) (d : Bytes) (hd : d.isEmpty = false) :
    handle_store_chunk hash node file_id chunk_id (some d) =
      ({ node with
          stored_chunks := ainsert (chunkKey file_id chunk_id)
            { chunk_id := chunk_id, size := d.length, data := d, checksum := hash d,
              status := TransferStatus.COMPLETED } node.stored_chunks
          used_storage := node.used_storage + d.length },
       StoreReply.success file_id chunk_id (hash d) d.length) := by
  simp [handle_store_chunk, hd]

theorem lookup_apply_stores (hash : Bytes → String) (k : String)
    (ops : List (String × Nat × Bytes)) :
    ∀ (node : DistributedStorageNode),
      (∀ op ∈ ops, chunkKey op.1 op.2.1 ≠ k) →
      List.lookup k (apply_stores hash node ops).stored_chunks =
        List.lookup k node.stored_chunks := by
  induction ops with
  | nil => intro node _; simp [apply_stores]
  | cons op rest ih =>
    intro node hops
    have hstep : apply_stores hash node (op :: rest) =
        apply_stores hash (handle_store_chunk hash node op.1 op.2.1 (some op.2.2)).1
          rest := by
      simp [apply_stores]
    rw [hstep, ih _ (fun o ho => hops o (List.mem_cons_of_mem _ ho))]
    by_cases hemp : op.2.2.isEmpty
    · simp [handle_store_chunk, hemp]
    · rw [handle_store_chunk_some hash node op.1 op.2.1 op.2.2
        (by simpa using hemp)]
      exact lookup_ainsert_ne _ _ _ _ (Ne.symm (hops op (List.mem_cons_self _ _)))

/-- C5: a STORE_CHUNK accepted by the distributed node reports the hash
of the stored payload, and any later GET_CHUNK for the same key, with
arbitrary intervening stores to other keys, returns exactly the stored
bytes, whose hash equals the checksum reported at store time. The hash
function is abstract, so the statement holds in particular for the
source's `hashlib.sha256(...).hexdigest()`. -/
theorem C5_store_get_roundtrip (hash : Bytes → String) (node : DistributedStorageNode)
    (file_id : String) (chunk_id : Nat) (d : Bytes)
    (ops : List (String × Nat × Bytes)) (hd : d ≠ [])
    (hops : ∀ op ∈ ops, chunkKey op.1 op.2.1 ≠ chunkKey file_id chunk_id) :
    (handle_store_chunk hash node file_id chunk_id (some d)).2 =
      StoreReply.success file_id chunk_id (hash d) d.length ∧
    handle_get_chunk
        (apply_stores hash (handle_store_chunk hash node file_id chunk_id (some d)).1 ops)
        file_id chunk_id = Except.ok (hash d, d.length, d) ∧
    (∀ cs sz dr,
      handle_get_chunk
          (apply_stores hash (handle_store_chunk hash node file_id chunk_id (some d)).1 ops)
          file_id chunk_id = Except.ok (cs, sz, dr) →
      dr = d ∧ hash dr = cs) := by
  have he := isEmpty_false_of_ne_nil hd
  have hlook : List.lookup (chunkKey file_id chunk_id)
      (apply_stores hash (handle_store_chunk hash node file_id chunk_id (some d)).1
        ops).stored_chunks =
      some { chunk_id := chunk_id, size := d.length, data := d, checksum := hash d,
             status := TransferStatus.COMPLETED } := by
    rw [lookup_apply_stores hash _ ops _ hops]
    rw [handle_store_chunk_some hash node file_id chunk_id d he]
    exact lookup_ainsert_self _ _ _
  refine ⟨?_, ?_, ?_⟩
  · rw [handle_store_chunk_some hash node file_id chunk_id d he]
  · simp [handle_get_chunk, hlook]
  · intro cs sz dr hget
    simp [handle_get_chunk, hlook] at hget
    obtain ⟨h1, h2, h3⟩ := hget
    refine ⟨h3.symm, ?_⟩
    rw [← h3]
    exact h1

/-- Witness for C5: store one byte on an empty node, no intervening
stores, then get it back. -/
theorem C5_store_get_roundtrip_witness :
    (([7] : Bytes) ≠ []) ∧
    handle_get_chunk
        (apply_stores (fun _ => "h")
          (handle_store_chunk (fun _ => "h")
            { node_id := "n1", storage_capacity := 100 } "f" 0 (some [7])).1 [])
        "f" 0 = Except.ok ("h", 1, [7]) :=
  ⟨by decide,
   (C5_store_get_roundtrip (fun _ => "h") { node_id := "n1", storage_capacity := 100 }
      "f" 0 [7] [] (by decide) (by intro op h; cases h)).2.1⟩

/-- C9: a STORE_CHUNK for an already-stored `(file_id, chunk_id)` key
replaces the stored chunk but still adds the full new payload length to
`used_storage` without subtracting the replaced chunk's size, so after
two stores to the same (previously absent) key `used_storage` exceeds
the total size of the chunks actually held by the first payload's
length. -/
theorem C9_double_store_leak (hash : Bytes → String) (node : DistributedStorageNode)
    (file_id : String) (chunk_id : Nat) (d1 d2 : Bytes)
    (hkey : List.lookup (chunkKey file_id chunk_id) node.stored_chunks = none)
    (hbal : node.used_storage = storedBytes node)
    (h1 : d1 ≠ []) (h2 : d2 ≠ []) :
    List.lookup (chunkKey file_id chunk_id)
        ((handle_store_chunk hash
            (handle_store_chunk hash node file_id chunk_id (some d1)).1
            file_id chunk_id (some d2)).1).stored_chunks =
      some { chunk_id := chunk_id, size := d2.length, data := d2, checksum := hash d2,
             status := TransferStatus.COMPLETED } ∧
    ((handle_store_chunk hash
        (handle_store_chunk hash node file_id chunk_id (some d1)).1
        file_id chunk_id (some d2)).1).used_storage =
      storedBytes ((handle_store_chunk hash
        (handle_store_chunk hash node file_id chunk_id (some d1)).1
        file_id chunk_id (some d2)).1) + d1.length ∧
    storedBytes ((handle_store_chunk hash
        (handle_store_chunk hash node file_id chunk_id (some d1)).1
        file_id chunk_id (some d2)).1) <
      ((handle_store_chunk hash
        (handle_store_chunk hash node file_id chunk_id (some d1)).1
        file_id chunk_id (some d2)).1).used_storage := by
  have he1 := isEmpty_false_of_ne_nil h1
  have he2 := isEmpty_false_of_ne_nil h2
  have hlen1 : 0 < d1.length := List.length_pos.mpr h1
  rw [handle_store_chunk_some hash node file_id chunk_id d1 he1]
  rw [handle_store_chunk_some hash _ file_id chunk_id d2 he2]
  simp only [ainsert_ainsert_same]
  have hsb : ((ainsert (chunkKey file_id chunk_id)
      { chunk_id := chunk_id, size := d2.length, data := d2, checksum := hash d2,
        status := TransferStatus.COMPLETED } node.stored_chunks).map
        (fun p => p.2.size)).sum =
      (node.stored_chunks.map (fun p => p.2.size)).sum + d2.length :=
    storedBytes_ainsert_none _ _ _ hkey
  refine ⟨lookup_ainsert_self _ _ _, ?_, ?_⟩
  · unfold storedBytes at hbal ⊢
    simp only [hsb]
    simp only [hbal]
    omega
  · unfold storedBytes at hbal ⊢
    simp only [hsb]
    simp only [hbal]
    omega

/-- Witness for C9: two one-byte stores to the same key on an empty
node leave `used_storage = 2` against 1 byte actually held. -/
theorem C9_double_store_leak_witness :
    storedBytes ((handle_store_chunk (fun _ => "h")
        (handle_store_chunk (fun _ => "h")
          { node_id := "n1", storage_capacity := 100 } "f" 0 (some [1])).1
        "f" 0 (some [2])).1) <
      ((handle_store_chunk (fun _ => "h")
        (handle_store_chunk (fun _ => "h")
          { node_id := "n1", storage_capacity := 100 } "f" 0 (some [1])).1
        "f" 0 (some [2])).1).used_storage :=
  (C9_double_store_leak (fun _ => "h") { node_id := "n1", storage_capacity := 100 }
    "f" 0 [1] [2] (by decide) (by decide) (by decide) (by decide)).2.2

/-! ### Wire protocol lemmas (claim C10) -/

theorem read_be32_append (n : Nat) (rest : Bytes) (h : n < 2 ^ 32) :
    read_be32 (be32 n ++ rest) = n := by
  simp only [be32, List.cons_append, List.nil_append, read_be32]
  omega

theorem drop_four_be32 (n : Nat) (l : Bytes) : (be32 n ++ l).drop 4 = l := by
  simp [be32]

theorem length_be32 (n : Nat) : (be32 n).length = 4 := rfl

theorem decode_encoded (json bin : Bytes)
    (hsize : 4 + json.length + bin.length ≤ MAX_MESSAGE_SIZE) :
    decode_message (be32 (4 + json.length + bin.length) ++
        (be32 json.length ++ (json ++ bin))) =
      Except.ok (json, if bin.isEmpty then none else some bin) := by
  have hmax : MAX_MESSAGE_SIZE < 2 ^ 32 := by norm_num [MAX_MESSAGE_SIZE]
  set E := json.length with hE
  set B := bin.length with hB
  set T := 4 + E + B with hT
  set rest : Bytes := be32 E ++ (json ++ bin) with hrest
  have hrestlen : rest.length = T := by
    rw [hrest]
    simp [length_be32, hT]
    omega
  have h1 : read_be32 (be32 T ++ rest) = T := read_be32_append _ _ (by omega)
  have hlen : (be32 T ++ rest).length = 4 + T := by
    simp [length_be32, hrestlen]
  have hdrop : (be32 T ++ rest).drop 4 = rest := drop_four_be32 _ _
  have htake : rest.take T = rest := by rw [← hrestlen, List.take_length]
  have h2 : read_be32 rest = E := by
    rw [hrest]
    exact read_be32_append _ _ (by omega)
  have hdropj : rest.drop 4 = json ++ bin := by
    rw [hrest]
    exact drop_four_be32 _ _
  have htakej : (json ++ bin).take E = json := by
    rw [hE]
    exact List.take_left _ _
  have hdropb : rest.drop (4 + E) = bin := by
    have : rest.drop (4 + E) = (rest.drop 4).drop E := by
      rw [List.drop_drop]
    rw [this, hdropj, hE]
    exact List.drop_left _ _
  have hsize2 : T ≤ 100 * 1024 * 1024 := by
    rw [hT, hE, hB]
    simpa [MAX_MESSAGE_SIZE] using hsize
  simp only [decode_message, HEADER_SIZE, JSON_LENGTH_SIZE, MAX_MESSAGE_SIZE]
  rw [hlen]
  rw [if_neg (by omega)]
  rw [h1]
  rw [if_neg (by omega)]
  rw [hdrop, htake]
  rw [if_neg (by omega)]
  rw [h2]
  rw [if_neg (by push_cast; omega)]
  rw [hdropj, htakej]
  rw [hrestlen]
  by_cases hb : bin.isEmpty
  · have hB0 : B = 0 := by
      show bin.length = 0
      rw [List.isEmpty_iff.mp hb]
      rfl
    rw [if_neg (by omega), if_pos hb]
  · have hB0 : 0 < B := by
      show 0 < bin.length
      cases bin with
      | nil => simp at hb
      | cons a t => simp
    rw [if_pos (by omega), if_neg hb, hdropb]

/-- C10 as amended: for every message and payload whose encoded frame
stays within the decoder's 100 MiB `MAX_MESSAGE_SIZE` bound, decoding
after encoding returns the original message and, for a non-empty
payload, the payload bytes unchanged, while a `None` or empty payload
comes back as `None`; for larger frames the decoder raises instead (see
the counterexample), so the claim's round trip holds only under this
size bound. The message object is related to its wire form by any
serialisation pair (the source's `Message.to_json` / `Message.from_json`)
that round-trips. -/
theorem C10_roundtrip {M : Type} (toJson : M → Bytes) (fromJson : Bytes → Option M)
    (m : M) (binary_data : Option Bytes)
    (hm : fromJson (toJson m) = some m)
    (hsize : 4 + (toJson m).length +
        (if pyTruthy binary_data then (binary_data.getD []).length else 0) ≤
      MAX_MESSAGE_SIZE) :
    ∃ frame, encode_message (toJson m) binary_data = Except.ok frame ∧
      decode_message frame = Except.ok (toJson m, normalizedPayload binary_data) ∧
      (decode_message frame).toOption.map (fun r => fromJson r.1) =
        some (some m) := by
  have hmax : MAX_MESSAGE_SIZE < 2 ^ 32 := by norm_num [MAX_MESSAGE_SIZE]
  by_cases hb : pyTruthy binary_data
  · cases binary_data with
    | none => simp [pyTruthy] at hb
    | some l =>
      have hl : l.isEmpty = false := by simpa [pyTruthy] using hb
      have hsize2 : 4 + (toJson m).length + l.length ≤ MAX_MESSAGE_SIZE := by
        simpa [hb] using hsize
      refine ⟨be32 (4 + (toJson m).length + l.length) ++
        (be32 (toJson m).length ++ (toJson m ++ l)), ?_, ?_, ?_⟩
      · unfold encode_message
        rw [if_pos ⟨by simp [JSON_LENGTH_SIZE, hb]; omega, by omega⟩, if_pos hb]
        simp [JSON_LENGTH_SIZE, List.append_assoc, hb]
      · rw [decode_encoded _ _ hsize2]
        simp [normalizedPayload, hb, hl]
      · rw [decode_encoded _ _ hsize2]
        simp only [hl, Bool.false_eq_true, if_false, Except.toOption]
        simp [hm]
  · have hsize2 : 4 + (toJson m).length + ([] : Bytes).length ≤ MAX_MESSAGE_SIZE := by
      simpa [hb] using hsize
    refine ⟨be32 (4 + (toJson m).length + ([] : Bytes).length) ++
      (be32 (toJson m).length ++ (toJson m ++ ([] : Bytes))), ?_, ?_, ?_⟩
    · unfold encode_message
      rw [if_pos ⟨by simp [JSON_LENGTH_SIZE, hb]; simp at hsize2; omega,
          by simp at hsize2; omega⟩, if_neg hb]
      simp [JSON_LENGTH_SIZE, List.append_assoc, hb]
    · rw [decode_encoded _ _ hsize2]
      simp [normalizedPayload, hb]
    · rw [decode_encoded _ _ hsize2]
      simp only [List.isEmpty_nil, if_true, Except.toOption]
      simp [hm]

/-- Witness for C10 as amended: a two-byte envelope with a one-byte
payload round-trips concretely. -/
theorem C10_roundtrip_witness :
    ∃ frame, encode_message [123] (some [7]) = Except.ok frame ∧
      decode_message frame = Except.ok ([123], normalizedPayload (some [7])) ∧
      (decode_message frame).toOption.map (fun r => some r.1) =
        some (some [123]) :=
  C10_roundtrip id some [123] (some [7]) rfl
    (by norm_num [pyTruthy, MAX_MESSAGE_SIZE])

theorem encode_message_some (json l : Bytes) (hl : l.isEmpty = false)
    (h1 : 4 + json.length + l.length < 2 ^ 32) (h2 : json.length < 2 ^ 32) :
    encode_message json (some l) =
      Except.ok (be32 (4 + json.length + l.length) ++
        (be32 json.length ++ (json ++ l))) := by
  have hb : pyTruthy (some l) = true := by simp [pyTruthy, hl]
  unfold encode_message
  rw [if_pos ⟨by simp [JSON_LENGTH_SIZE, hb]; omega, h2⟩, if_pos hb]
  simp [JSON_LENGTH_SIZE, List.append_assoc, hb]

/-- C10 counterexample: a non-empty payload of exactly `MAX_MESSAGE_SIZE`
bytes encodes into a frame that `decode_message` rejects as too large,
so `decode(encode(m, b)) = (m, b)` fails for this non-empty `b`. -/
theorem decode_too_large (T : Nat) (rest : Bytes) (hT1 : T < 2 ^ 32)
    (hT2 : MAX_MESSAGE_SIZE < T) :
    decode_message (be32 T ++ rest) = Except.error "Message too large" := by
  simp only [decode_message, HEADER_SIZE]
  rw [if_neg (by simp [length_be32])]
  rw [read_be32_append _ _ hT1]
  rw [if_pos hT2]

/-- C10 counterexample: a non-empty payload of exactly `MAX_MESSAGE_SIZE`
bytes encodes into a frame that `decode_message` rejects as too large,
so `decode(encode(m, b)) = (m, b)` fails for this non-empty `b`. -/
theorem C10_counterexample :
    (List.replicate MAX_MESSAGE_SIZE 7 : Bytes) ≠ [] ∧
    ∃ frame,
      encode_message [123, 125] (some (List.replicate MAX_MESSAGE_SIZE 7)) =
        Except.ok frame ∧
      decode_message frame = Except.error "Message too large" := by
  have hrep : (List.replicate MAX_MESSAGE_SIZE 7 : Bytes).length = MAX_MESSAGE_SIZE :=
    List.length_replicate _ _
  have hnn : (List.replicate MAX_MESSAGE_SIZE 7 : Bytes) ≠ [] := by
    apply List.ne_nil_of_length_pos
    rw [hrep]
    norm_num [MAX_MESSAGE_SIZE]
  have hencode := encode_message_some [123, 125] (List.replicate MAX_MESSAGE_SIZE 7)
    (isEmpty_false_of_ne_nil hnn)
    (by rw [hrep]; norm_num [MAX_MESSAGE_SIZE]) (by norm_num)
  refine ⟨hnn, _, hencode, ?_⟩
  apply decode_too_large
  · rw [hrep]
    norm_num [MAX_MESSAGE_SIZE]
  · rw [hrep]
    norm_num [MAX_MESSAGE_SIZE]

/-! ### Heartbeat monitor lemmas (claim C6) -/

theorem mem_sadd_iff (x y : String) (s : List String) :
    x ∈ sadd y s ↔ x ∈ s ∨ x = y := by
  unfold sadd
  by_cases h : y ∈ s
  · rw [if_pos h]
    constructor
    · exact Or.inl
    · rintro (hx | rfl)
      exacts [hx, h]
  · rw [if_neg h]
    simp [List.mem_append]

theorem mem_sdiscard_iff (x y : String) (s : List String) :
    x ∈ sdiscard y s ↔ x ∈ s ∧ x ≠ y := by
  simp [sdiscard]

theorem check_node_step_failed_other (now tmo : Int) (m : HeartbeatMonitor)
    (e : String × Int) (x : String) (hx : x ≠ e.1) :
    (x ∈ (check_node_step now tmo m e).1.failed_nodes ↔ x ∈ m.failed_nodes) := by
  obtain ⟨e1, e2⟩ := e
  simp only [check_node_step, mark_node_failed, mark_node_recovered]
  simp only at hx
  split
  · split
    · simp [mem_sadd_iff, hx]
    · simp
  · split
    · simp [mem_sdiscard_iff, hx]
    · split <;> simp

theorem check_node_step_events (now tmo : Int) (m : HeartbeatMonitor)
    (e : String × Int) :
    ∀ ev ∈ (check_node_step now tmo m e).2,
      ev = HBEvent.failure e.1 ∨ ev = HBEvent.recovery e.1 := by
  obtain ⟨e1, e2⟩ := e
  simp only [check_node_step, mark_node_failed, mark_node_recovered]
  split
  · split <;> simp
  · split
    · simp
    · split <;> simp

theorem check_node_step_self (now tmo : Int) (m : HeartbeatMonitor) (e : String × Int) :
    (HBEvent.failure e.1 ∈ (check_node_step now tmo m e).2 ↔
      now - e.2 > tmo ∧ e.1 ∉ m.failed_nodes) ∧
    (now - e.2 > tmo → e.1 ∈ (check_node_step now tmo m e).1.failed_nodes) := by
  obtain ⟨e1, e2⟩ := e
  simp only [check_node_step, mark_node_failed, mark_node_recovered]
  by_cases hover : now - e2 > tmo
  · rw [if_pos hover]
    by_cases hf : e1 ∈ m.failed_nodes
    · rw [if_neg (by simpa using hf)]
      simp [hover, hf]
    · rw [if_pos (by simpa using hf)]
      simp [hover, hf, mem_sadd_iff]
  · rw [if_neg hover]
    split
    · simp [hover]
    · split <;> simp [hover]

theorem failure_not_mem_step_events (now tmo : Int) (m : HeartbeatMonitor)
    (e : String × Int) (x : String) (hx : x ≠ e.1) :
    HBEvent.failure x ∉ (check_node_step now tmo m e).2 := by
  intro h
  rcases check_node_step_events now tmo m e _ h with h' | h'
  · simp only [HBEvent.failure.injEq] at h'
    exact hx h'
  · exact HBEvent.noConfusion h'

theorem check_go_failure_not_mem (now tmo : Int) :
    ∀ (l : List (String × Int)) (m : HeartbeatMonitor) (evs : List HBEvent)
      (x : String), x ∉ l.map Prod.fst →
      (HBEvent.failure x ∈ (check_go now tmo m evs l).2 ↔ HBEvent.failure x ∈ evs) := by
  intro l
  induction l with
  | nil => intro m evs x _; simp [check_go]
  | cons e rest ih =>
    intro m evs x hx
    rw [List.map_cons] at hx
    have hx1 : x ≠ e.1 := fun h => hx (h ▸ List.mem_cons_self _ _)
    have hx2 : x ∉ rest.map Prod.fst := fun h => hx (List.mem_cons_of_mem _ h)
    unfold check_go
    rw [ih _ _ _ hx2]
    simp only [List.mem_append]
    constructor
    · rintro (h | h)
      · exact h
      · exact absurd h (failure_not_mem_step_events now tmo m e x hx1)
    · exact Or.inl

theorem check_go_failed_not_mem (now tmo : Int) :
    ∀ (l : List (String × Int)) (m : HeartbeatMonitor) (evs : List HBEvent)
      (x : String), x ∉ l.map Prod.fst →
      (x ∈ (check_go now tmo m evs l).1.failed_nodes ↔ x ∈ m.failed_nodes) := by
  intro l
  induction l with
  | nil => intro m evs x _; simp [check_go]
  | cons e rest ih =>
    intro m evs x hx
    rw [List.map_cons] at hx
    have hx1 : x ≠ e.1 := fun h => hx (h ▸ List.mem_cons_self _ _)
    have hx2 : x ∉ rest.map Prod.fst := fun h => hx (List.mem_cons_of_mem _ h)
    unfold check_go
    rw [ih _ _ _ hx2]
    exact check_node_step_failed_other now tmo m e x hx1

theorem check_go_spec (now tmo : Int) :
    ∀ (l : List (String × Int)) (m : HeartbeatMonitor) (evs : List HBEvent)
      (x : String) (t : Int), (l.map Prod.fst).Nodup → (x, t) ∈ l →
      ((HBEvent.failure x ∈ (check_go now tmo m evs l).2 ↔
        HBEvent.failure x ∈ evs ∨ (now - t > tmo ∧ x ∉ m.failed_nodes)) ∧
       (now - t > tmo → x ∈ (check_go now tmo m evs l).1.failed_nodes)) := by
  intro l
  induction l with
  | nil => intro m evs x t _ hmem; cases hmem
  | cons e rest ih =>
    intro m evs x t hnd hmem
    rw [List.map_cons, List.nodup_cons] at hnd
    obtain ⟨hnd1, hnd2⟩ := hnd
    rcases List.mem_cons.mp hmem with heq | hrest
    · obtain ⟨e1, e2⟩ := e
      injection heq with hx ht
      subst hx
      subst ht
      have hxrest : x ∉ rest.map Prod.fst := hnd1
      unfold check_go
      constructor
      · rw [check_go_failure_not_mem now tmo rest _ _ _ hxrest]
        simp only [List.mem_append]
        rw [(check_node_step_self now tmo m (x, t)).1]
      · intro hover
        rw [check_go_failed_not_mem now tmo rest _ _ _ hxrest]
        exact (check_node_step_self now tmo m (x, t)).2 hover
    · have hx1 : x ≠ e.1 := by
        intro hcontra
        apply hnd1
        rw [← hcontra]
        exact List.mem_map_of_mem Prod.fst hrest
      unfold check_go
      have hstep := ih (check_node_step now tmo m e).1
        (evs ++ (check_node_step now tmo m e).2) x t hnd2 hrest
      constructor
      · rw [hstep.1]
        simp only [List.mem_append]
        rw [check_node_step_failed_other now tmo m e x hx1]
        constructor
        · rintro ((h | h) | h)
          · exact Or.inl h
          · exact absurd h (failure_not_mem_step_events now tmo m e x hx1)
          · exact Or.inr h
        · rintro (h | h)
          · exact Or.inl (Or.inl h)
          · exact Or.inr h
      · exact hstep.2

/-- C6: receiving a heartbeat records the timestamp and moves a FAILED
node back to HEALTHY while firing exactly the recovery callback, any
other node ends up in the HEALTHY set with no event; and the periodic
check fires the failure callback for a node (and moves it to FAILED)
exactly when `now - last_heartbeat > failure_timeout` and the node is
not already FAILED. -/
theorem C6_heartbeat_monitor (m : HeartbeatMonitor) (node_id : String)
    (now failure_timeout t : Int)
    (hnd : (m.last_heartbeat.map Prod.fst).Nodup)
    (hmem : (node_id, t) ∈ m.last_heartbeat) :
    (List.lookup node_id (receive_heartbeat m node_id now).1.last_heartbeat =
        some now) ∧
    (node_id ∈ m.failed_nodes →
      node_id ∉ (receive_heartbeat m node_id now).1.failed_nodes ∧
      node_id ∈ (receive_heartbeat m node_id now).1.healthy_nodes ∧
      (receive_heartbeat m node_id now).2 = [HBEvent.recovery node_id]) ∧
    (node_id ∉ m.failed_nodes →
      node_id ∈ (receive_heartbeat m node_id now).1.healthy_nodes ∧
      (receive_heartbeat m node_id now).2 = []) ∧
    (HBEvent.failure node_id ∈ (check_all_nodes m now failure_timeout).2 ↔
      now - t > failure_timeout ∧ node_id ∉ m.failed_nodes) ∧
    (now - t > failure_timeout →
      node_id ∈ (check_all_nodes m now failure_timeout).1.failed_nodes) := by
  have hspec := check_go_spec now failure_timeout m.last_heartbeat m [] node_id t
    hnd hmem
  refine ⟨?_, ?_, ?_, ?_, ?_⟩
  · simp only [receive_heartbeat, mark_node_recovered]
    split
    · exact lookup_ainsert_self _ _ _
    · split
      · exact lookup_ainsert_self _ _ _
      · exact lookup_ainsert_self _ _ _
  · intro hf
    simp only [receive_heartbeat, mark_node_recovered]
    rw [if_pos hf]
    refine ⟨?_, ?_, rfl⟩
    · simp [mem_sdiscard_iff]
    · simp [mem_sadd_iff]
  · intro hf
    simp only [receive_heartbeat, mark_node_recovered]
    rw [if_neg hf]
    by_cases hh : node_id ∈ m.healthy_nodes
    · rw [if_pos hh]
      exact ⟨hh, rfl⟩
    · rw [if_neg hh]
      exact ⟨by simp [mem_sadd_iff], rfl⟩
  · unfold check_all_nodes
    rw [hspec.1]
    simp
  · exact hspec.2

/-- Witness for C6: one known node "a", currently FAILED, last heartbeat
at time 0; a heartbeat at time 100 records the timestamp, and the check
at time 100 with timeout 30 emits no failure event for "a" since it is
already FAILED. -/
theorem C6_heartbeat_monitor_witness :
    (List.lookup "a"
        (receive_heartbeat
          { last_heartbeat := [("a", 0)], healthy_nodes := [], failed_nodes := ["a"] }
          "a" 100).1.last_heartbeat = some 100) ∧
    (HBEvent.failure "a" ∈
        (check_all_nodes
          { last_heartbeat := [("a", 0)], healthy_nodes := [], failed_nodes := ["a"] }
          100 30).2 ↔
      ((100 : Int) - 0 > 30 ∧ "a" ∉
        ({ last_heartbeat := [("a", 0)], healthy_nodes := [],
           failed_nodes := ["a"] } : HeartbeatMonitor).failed_nodes)) := by
  have h := C6_heartbeat_monitor
    { last_heartbeat := [("a", 0)], healthy_nodes := [], failed_nodes := ["a"] }
    "a" 100 30 0 (by decide) (by decide)
  exact ⟨h.1, h.2.2.2.1⟩

/-! ### Replication-manager evaluation (claim C3) -/

/-- C3: with the default configuration (`min_factor = 2`,
`default_factor = 3`), failing node-1 of the three-replica test state
leaves every chunk with 2 replicas — strictly below the replication
factor 3 — yet `handle_node_failure` returns NO under-replicated chunks
(its threshold is `min_factor`, not the file's replication factor), so
nothing is ever re-replicated; the repository's own test asserts the
returned list has 3 entries. Moreover the re-replication step
`_re_replicate_chunk` would call `process_chunk_transfer` on the
recipient, which returns `False` and changes nothing on a node without
an active transfer for the file, so even a selected chunk could never be
copied to a fresh recipient. -/
theorem C3_failure_recovery_bug :
    (handle_node_failure replication_min_factor replication_default_factor
        c3_test_state "node-1").2 = [] ∧
    (∀ cid ∈ List.range 3,
      get_replication_count
        (handle_node_failure replication_min_factor replication_default_factor
          c3_test_state "node-1").1 "file-1" cid = 2 ∧
      ¬ is_under_replicated replication_min_factor
        (handle_node_failure replication_min_factor replication_default_factor
          c3_test_state "node-1").1 "file-1" cid ∧
      2 < replication_default_factor) ∧
    (process_chunk_transfer (fun _ => "") true c3_fresh_target "file-1" 0 "node-2").2 =
      false ∧
    (process_chunk_transfer (fun _ => "") true c3_fresh_target "file-1" 0 "node-2").1 =
      c3_fresh_target := by
  refine ⟨by decide, by decide, rfl, rfl⟩

/-! ### Placement policy lemmas (claims C7, C8) -/

theorem subperm_subset {α : Type} {l1 l2 : List α} (h : l1.Subperm l2) :
    ∀ x ∈ l1, x ∈ l2 := by
  obtain ⟨w, hp, hs⟩ := h
  intro x hx
  exact hs.subset (hp.mem_iff.mpr hx)

theorem subperm_nodup {α : Type} {l1 l2 : List α} (h : l1.Subperm l2)
    (h2 : l2.Nodup) : l1.Nodup := by
  obtain ⟨w, hp, hs⟩ := h
  exact hp.nodup_iff.mp (hs.nodup h2)

theorem diverse_go_append_sublist (l : List PNode) (step count : Nat)
    (hstep : 0 < step) :
    ∀ (fuel i : Nat) (selected : List PNode),
      ∃ s, diverse_go l step count fuel i selected = selected ++ s ∧
        s.Sublist (l.drop i) := by
  intro fuel
  induction fuel with
  | zero =>
    intro i selected
    exact ⟨[], by simp [diverse_go], List.nil_sublist _⟩
  | succ fuel ih =>
    intro i selected
    unfold diverse_go
    by_cases h : i < l.length
    · rw [dif_pos h]
      by_cases hc : count ≤ selected.length
      · rw [if_pos hc]
        exact ⟨[], by simp, List.nil_sublist _⟩
      · rw [if_neg hc]
        obtain ⟨s, hs1, hs2⟩ := ih (i + step) (selected ++ [l.get ⟨i, h⟩])
        refine ⟨l.get ⟨i, h⟩ :: s, ?_, ?_⟩
        · rw [hs1, List.append_assoc]
          rfl
        · have hdi : l.drop i = l.get ⟨i, h⟩ :: l.drop (i + 1) := by
            rw [← List.getElem_cons_drop l i h]
            rfl
          rw [hdi]
          apply List.Sublist.cons₂
          have hdd : l.drop (i + step) = (l.drop (i + 1)).drop (step - 1) := by
            rw [List.drop_drop]
            congr 1
            omega
          rw [hdd] at hs2
          exact hs2.trans (List.drop_sublist _ _)
    · rw [dif_neg h]
      exact ⟨[], by simp, List.nil_sublist _⟩

theorem fill_go_mem (l : List PNode) (count : Nat) :
    ∀ (fuel : Nat) (selected : List PNode) (x : PNode),
      x ∈ fill_go l count fuel selected → x ∈ selected ∨ x ∈ l := by
  intro fuel
  induction fuel with
  | zero => intro selected x hx; exact Or.inl hx
  | succ fuel ih =>
    intro selected x hx
    unfold fill_go at hx
    by_cases hcond : selected.length < count ∧ selected.length < l.length
    · rw [if_pos hcond] at hx
      cases hfind : l.find? (fun n => decide (n ∉ selected)) with
      | none => rw [hfind] at hx; exact Or.inl hx
      | some n =>
        rw [hfind] at hx
        rcases ih _ _ hx with hsel | hl
        · rcases List.mem_append.mp hsel with hs | hn
          · exact Or.inl hs
          · rw [List.mem_singleton.mp hn]
            exact Or.inr (List.mem_of_find?_eq_some hfind)
        · exact Or.inr hl
    · rw [if_neg hcond] at hx
      exact Or.inl hx

theorem fill_go_nodup (l : List PNode) (count : Nat) :
    ∀ (fuel : Nat) (selected : List PNode), selected.Nodup →
      (fill_go l count fuel selected).Nodup := by
  intro fuel
  induction fuel with
  | zero => intro selected h; exact h
  | succ fuel ih =>
    intro selected h
    unfold fill_go
    by_cases hcond : selected.length < count ∧ selected.length < l.length
    · rw [if_pos hcond]
      cases hfind : l.find? (fun n => decide (n ∉ selected)) with
      | none => exact h
      | some n =>
        apply ih
        have hn : n ∉ selected := by
          have := List.find?_some hfind
          simpa using this
        simp [List.nodup_append, h, hn]
    · rw [if_neg hcond]
      exact h

theorem fill_go_of_ge (l : List PNode) (count fuel : Nat) (selected : List PNode)
    (h : ¬ selected.length < count) : fill_go l count fuel selected = selected := by
  cases fuel with
  | zero => rfl
  | succ fuel =>
    unfold fill_go
    rw [if_neg (by intro hc; exact h hc.1)]

/-- C7: for every strategy, the selection contains no excluded node and
no node with less free space than the chunk, has no duplicates, and when
fewer than `count` candidates survive the exclude/capacity filter the
selection is exactly the surviving candidates. `sample` stands for
`random.sample`, assumed only to pick a submultiset of its input (which
`random.sample` guarantees: it draws without replacement). -/
theorem C7_placement_filter (strategy : String)
    (sample : List PNode → Nat → List PNode) (available_nodes : List PNode)
    (count : Nat) (exclude_nodes : List String) (chunk_size : Int)
    (hnd : available_nodes.Nodup)
    (hsample : ∀ (l : List PNode) (k : Nat), (sample l k).Subperm l) :
    (∀ n ∈ select_replica_nodes strategy sample available_nodes count exclude_nodes
        chunk_size, n.node_id ∉ exclude_nodes ∧ chunk_size ≤ free_space n) ∧
    (select_replica_nodes strategy sample available_nodes count exclude_nodes
      chunk_size).Nodup ∧
    ((available_nodes.filter (fun node => decide (node.node_id ∉ exclude_nodes) &&
        decide (chunk_size ≤ free_space node))).length < count →
      select_replica_nodes strategy sample available_nodes count exclude_nodes
        chunk_size =
      available_nodes.filter (fun node => decide (node.node_id ∉ exclude_nodes) &&
        decide (chunk_size ≤ free_space node))) := by
  unfold select_replica_nodes
  set candidates := available_nodes.filter
    (fun node => decide (node.node_id ∉ exclude_nodes) &&
      decide (chunk_size ≤ free_space node)) with hcand
  have hcand_nodup : candidates.Nodup := hnd.filter _
  have hcand_mem : ∀ n ∈ candidates,
      n.node_id ∉ exclude_nodes ∧ chunk_size ≤ free_space n := by
    intro n hn
    have := (List.mem_filter.mp hn).2
    simp only [Bool.and_eq_true, decide_eq_true_eq] at this
    exact this
  have hsort_perm : (sort_by_free_desc candidates).Perm candidates :=
    List.perm_insertionSort _ candidates
  by_cases hlt : candidates.length < count
  · rw [if_pos hlt]
    exact ⟨hcand_mem, hcand_nodup, fun _ => rfl⟩
  · rw [if_neg hlt]
    have hsub : ∀ (res : List PNode), (∀ x ∈ res, x ∈ candidates) → res.Nodup →
        ((∀ n ∈ res, n.node_id ∉ exclude_nodes ∧ chunk_size ≤ free_space n) ∧
          res.Nodup ∧ (candidates.length < count → res = candidates)) := by
      intro res hresmem hresnd
      exact ⟨fun n hn => hcand_mem n (hresmem n hn), hresnd, fun hc => absurd hc hlt⟩
    by_cases hs1 : strategy = "random"
    · rw [if_pos hs1]
      exact hsub _ (subperm_subset (hsample candidates count))
        (subperm_nodup (hsample candidates count) hcand_nodup)
    · rw [if_neg hs1]
      by_cases hs2 : strategy = "least_loaded"
      · rw [if_pos hs2]
        apply hsub
        · intro x hx
          exact hsort_perm.subset ((List.take_sublist _ _).subset hx)
        · exact ((List.take_sublist _ _).nodup
            (hsort_perm.nodup_iff.mpr hcand_nodup))
      · rw [if_neg hs2]
        by_cases hs3 : strategy = "diverse"
        · rw [if_pos hs3]
          simp only []
          set sorted := sort_by_free_desc candidates with hsorted
          set step := max 1 (sorted.length / count) with hstep
          obtain ⟨s, hs_eq, hs_sub⟩ := diverse_go_append_sublist sorted step count
            (by omega) sorted.length 0 []
          rw [hs_eq]
          simp only [List.nil_append]
          have hs_sub2 : s.Sublist sorted := by
            simpa using hs_sub
          apply hsub
          · intro x hx
            rcases fill_go_mem sorted count count s x hx with h | h
            · exact hsort_perm.subset (hs_sub2.subset h)
            · exact hsort_perm.subset h
          · exact fill_go_nodup sorted count count s
              (hs_sub2.nodup (hsort_perm.nodup_iff.mpr hcand_nodup))
        · rw [if_neg hs3]
          exact hsub _ (subperm_subset (hsample candidates count))
            (subperm_nodup (hsample candidates count) hcand_nodup)

/-- Witness for C7: a concrete three-node pool with one excluded node
and the deterministic head-sampler; the returned selection has no
duplicates. -/
theorem C7_placement_filter_witness :
    (select_replica_nodes "diverse" (fun l k => l.take k)
      [{ node_id := "n1", total_storage := 100, used_storage := 0 },
       { node_id := "n2", total_storage := 100, used_storage := 50 },
       { node_id := "n3", total_storage := 100, used_storage := 90 }]
      2 ["n2"] 5).Nodup :=
  (C7_placement_filter "diverse" (fun l k => l.take k)
    [{ node_id := "n1", total_storage := 100, used_storage := 0 },
     { node_id := "n2", total_storage := 100, used_storage := 50 },
     { node_id := "n3", total_storage := 100, used_storage := 90 }]
    2 ["n2"] 5 (by decide) (fun l k => (List.take_sublist k l).subperm)).2.1

theorem take_every_aux_fuel (k : Nat) :
    ∀ (f1 f2 : Nat) (l : List PNode), l.length ≤ f1 → l.length ≤ f2 →
      take_every_aux k f1 l = take_every_aux k f2 l := by
  intro f1
  induction f1 with
  | zero =>
    intro f2 l h1 h2
    have hl : l = [] := List.length_eq_zero.mp (by omega)
    subst hl
    cases f2 <;> rfl
  | succ f1 ih =>
    intro f2 l h1 h2
    cases l with
    | nil => cases f2 <;> rfl
    | cons x xs =>
      cases f2 with
      | zero => simp at h2
      | succ f2 =>
        show x :: take_every_aux k f1 (xs.drop (k - 1)) =
          x :: take_every_aux k f2 (xs.drop (k - 1))
        congr 1
        apply ih
        · rw [List.length_drop]
          simp at h1
          omega
        · rw [List.length_drop]
          simp at h2
          omega

theorem take_every_kth_cons (x : PNode) (xs : List PNode) (k : Nat) :
    take_every_kth (x :: xs) k = x :: take_every_kth (xs.drop (k - 1)) k := by
  show x :: take_every_aux k xs.length (xs.drop (k - 1)) =
    x :: take_every_aux k (xs.drop (k - 1)).length (xs.drop (k - 1))
  congr 1
  apply take_every_aux_fuel
  · rw [List.length_drop]
    omega
  · exact le_refl _

theorem take_every_kth_sublist (step : Nat) :
    ∀ (n : Nat) (l : List PNode), l.length ≤ n →
      (take_every_kth l step).Sublist l := by
  intro n
  induction n with
  | zero =>
    intro l hl
    have hl0 : l.length = 0 := by omega
    rw [List.length_eq_zero.mp hl0]
    simp [take_every_kth, take_every_aux]
  | succ n ih =>
    intro l hl
    cases l with
    | nil => simp [take_every_kth, take_every_aux]
    | cons x xs =>
      rw [take_every_kth_cons]
      apply List.Sublist.cons₂
      have hlen : (xs.drop (step - 1)).length ≤ n := by
        rw [List.length_drop]
        have hxl : xs.length + 1 ≤ n + 1 := by simpa using hl
        omega
      exact (ih (xs.drop (step - 1)) hlen).trans (List.drop_sublist _ _)

theorem length_take_every (step : Nat) (hstep : 0 < step) :
    ∀ (n : Nat) (l : List PNode), l.length ≤ n →
      (take_every_kth l step).length = (l.length + step - 1) / step := by
  intro n
  induction n with
  | zero =>
    intro l hl
    have hl0 : l.length = 0 := by omega
    rw [List.length_eq_zero.mp hl0]
    simp [take_every_kth, take_every_aux]
    rw [Nat.div_eq_of_lt (by omega)]
  | succ n ih =>
    intro l hl
    cases l with
    | nil =>
      simp [take_every_kth, take_every_aux]
      rw [Nat.div_eq_of_lt (by omega)]
    | cons x xs =>
      rw [take_every_kth_cons]
      have hlen : (xs.drop (step - 1)).length ≤ n := by
        rw [List.length_drop]
        have hxl : xs.length + 1 ≤ n + 1 := by simpa using hl
        omega
      rw [List.length_cons, ih (xs.drop (step - 1)) hlen]
      simp only [List.length_drop, List.length_cons]
      rcases Nat.lt_or_ge xs.length (step - 1) with hcase | hcase
      · have h1 : xs.length - (step - 1) = 0 := by omega
        rw [h1, Nat.div_eq_of_lt (by omega)]
        have h2 : (xs.length + 1 + step - 1) / step = 1 := by
          apply Nat.div_eq_of_lt_le
          · omega
          · omega
        rw [h2]
      · have h1 : xs.length - (step - 1) + step - 1 =
            (xs.length + 1 - step + step - 1) := by omega
        have h3 : xs.length + 1 + step - 1 = (xs.length + 1 - step + step - 1) + step := by
          omega
        rw [h1, h3, Nat.add_div_right _ hstep]

theorem diverse_go_eq_take_every (l : List PNode) (step count : Nat)
    (hstep : 0 < step) :
    ∀ (fuel i : Nat) (selected : List PNode), l.length - i ≤ fuel →
      diverse_go l step count fuel i selected =
        selected ++ (take_every_kth (l.drop i) step).take (count - selected.length) := by
  intro fuel
  induction fuel with
  | zero =>
    intro i selected hfuel
    have hdrop : l.drop i = [] := List.drop_eq_nil_of_le (by omega)
    unfold diverse_go
    rw [hdrop]
    simp [take_every_kth, take_every_aux]
  | succ fuel ih =>
    intro i selected hfuel
    unfold diverse_go
    by_cases h : i < l.length
    · rw [dif_pos h]
      by_cases hc : count ≤ selected.length
      · rw [if_pos hc]
        have hz : count - selected.length = 0 := by omega
        rw [hz]
        simp
      · rw [if_neg hc]
        rw [ih (i + step) (selected ++ [l.get ⟨i, h⟩]) (by omega)]
        have hdi : l.drop i = l.get ⟨i, h⟩ :: l.drop (i + 1) := by
          rw [← List.getElem_cons_drop l i h]
          rfl
        have hdd : (l.drop (i + 1)).drop (step - 1) = l.drop (i + step) := by
          rw [List.drop_drop]
          congr 1
          omega
        have hte : take_every_kth (l.drop i) step =
            l.get ⟨i, h⟩ :: take_every_kth (l.drop (i + step)) step := by
          rw [hdi, take_every_kth_cons, hdd]
        rw [hte]
        have hcnt : count - selected.length = (count - (selected.length + 1)) + 1 := by
          omega
        rw [hcnt, List.take_succ_cons]
        simp [List.append_assoc, List.length_append]
    · rw [dif_neg h]
      have hdrop : l.drop i = [] := List.drop_eq_nil_of_le (by omega)
      rw [hdrop]
      simp [take_every_kth, take_every_aux]

/-- C8: with the "diverse" strategy and at least `count` surviving
candidates, the selection is exactly the first `count` entries of the
every-k-th subsequence (k = max(1, len / count)) of the candidate list
sorted by free space descending; it has exactly `count` distinct nodes.
The concrete 5-node scenario of the claim is the witness theorem. -/
theorem C8_diverse_takes_every_kth (sample : List PNode → Nat → List PNode)
    (available_nodes : List PNode) (count : Nat) (exclude_nodes : List String)
    (chunk_size : Int) (hnd : available_nodes.Nodup) (hcount : 0 < count)
    (hge : count ≤ (available_nodes.filter
      (fun node => decide (node.node_id ∉ exclude_nodes) &&
        decide (chunk_size ≤ free_space node))).length) :
    select_replica_nodes "diverse" sample available_nodes count exclude_nodes
        chunk_size =
      (take_every_kth
        (sort_by_free_desc (available_nodes.filter
          (fun node => decide (node.node_id ∉ exclude_nodes) &&
            decide (chunk_size ≤ free_space node))))
        (max 1 ((available_nodes.filter
          (fun node => decide (node.node_id ∉ exclude_nodes) &&
            decide (chunk_size ≤ free_space node))).length / count))).take count ∧
    (select_replica_nodes "diverse" sample available_nodes count exclude_nodes
      chunk_size).length = count ∧
    (select_replica_nodes "diverse" sample available_nodes count exclude_nodes
      chunk_size).Nodup := by
  unfold select_replica_nodes
  set candidates := available_nodes.filter
    (fun node => decide (node.node_id ∉ exclude_nodes) &&
      decide (chunk_size ≤ free_space node)) with hcand
  have hcand_nodup : candidates.Nodup := hnd.filter _
  have hsort_perm : (sort_by_free_desc candidates).Perm candidates :=
    List.perm_insertionSort _ candidates
  have hsort_len : (sort_by_free_desc candidates).length = candidates.length :=
    hsort_perm.length_eq
  rw [if_neg (by omega), if_neg (by decide), if_neg (by decide), if_pos rfl]
  simp only []
  set sorted := sort_by_free_desc candidates with hsorted
  set step := max 1 (sorted.length / count) with hstep
  have hstep_pos : 0 < step := by omega
  have hstep_eq : step = sorted.length / count := by
    rw [hstep]
    have hdiv : 1 ≤ sorted.length / count := by
      rw [Nat.one_le_div_iff hcount]
      omega
    omega
  rw [diverse_go_eq_take_every sorted step count hstep_pos sorted.length 0 []
    (by omega)]
  simp only [List.nil_append, List.drop_zero, List.length_nil, Nat.sub_zero]
  have hmul : count * step ≤ sorted.length := by
    rw [hstep_eq]
    calc count * (sorted.length / count) = sorted.length / count * count :=
          Nat.mul_comm _ _
      _ ≤ sorted.length := Nat.div_mul_le_self _ _
  have hceil : count ≤ (sorted.length + step - 1) / step := by
    have hdivge : count ≤ sorted.length / step :=
      (Nat.le_div_iff_mul_le hstep_pos).mpr hmul
    exact le_trans hdivge (Nat.div_le_div_right (by omega))
  have hlen_te : (take_every_kth sorted step).length =
      (sorted.length + step - 1) / step :=
    length_take_every step hstep_pos sorted.length sorted (le_refl _)
  have hlen_take : ((take_every_kth sorted step).take count).length = count := by
    rw [List.length_take, hlen_te]
    omega
  have hfill : fill_go sorted count count ((take_every_kth sorted step).take count) =
      (take_every_kth sorted step).take count := by
    apply fill_go_of_ge
    rw [hlen_take]
    omega
  rw [hfill]
  have hsteps : max 1 (candidates.length / count) = step := by
    rw [hstep, hsort_len]
  refine ⟨by rw [hsteps], hlen_take, ?_⟩
  have hnodup_sorted : sorted.Nodup := hsort_perm.nodup_iff.mpr hcand_nodup
  exact ((List.take_sublist _ _).trans
    (take_every_kth_sublist step sorted.length sorted (le_refl _))).nodup
    hnodup_sorted

/-- Witness for C8, the concrete scenario of the claim: 5 candidates
with free space 90, 80, 70, 60, 50 GiB and count = 3 yield the three
nodes with the most free space, in descending free-space order. -/
theorem C8_diverse_takes_every_kth_witness :
    select_replica_nodes "diverse" (fun l k => l.take k)
        [{ node_id := "n1", total_storage := 100 * 1024 * 1024 * 1024,
           used_storage := 10 * 1024 * 1024 * 1024 },
         { node_id := "n2", total_storage := 100 * 1024 * 1024 * 1024,
           used_storage := 20 * 1024 * 1024 * 1024 },
         { node_id := "n3", total_storage := 100 * 1024 * 1024 * 1024,
           used_storage := 30 * 1024 * 1024 * 1024 },
         { node_id := "n4", total_storage := 100 * 1024 * 1024 * 1024,
           used_storage := 40 * 1024 * 1024 * 1024 },
         { node_id := "n5", total_storage := 100 * 1024 * 1024 * 1024,
           used_storage := 50 * 1024 * 1024 * 1024 }]
        3 [] 0 =
      [{ node_id := "n1", total_storage := 100 * 1024 * 1024 * 1024,
         used_storage := 10 * 1024 * 1024 * 1024 },
       { node_id := "n2", total_storage := 100 * 1024 * 1024 * 1024,
         used_storage := 20 * 1024 * 1024 * 1024 },
       { node_id := "n3", total_storage := 100 * 1024 * 1024 * 1024,
         used_storage := 30 * 1024 * 1024 * 1024 }] := by
  have h := C8_diverse_takes_every_kth (fun l k => l.take k)
    [{ node_id := "n1", total_storage := 100 * 1024 * 1024 * 1024,
       used_storage := 10 * 1024 * 1024 * 1024 },
     { node_id := "n2", total_storage := 100 * 1024 * 1024 * 1024,
       used_storage := 20 * 1024 * 1024 * 1024 },
     { node_id := "n3", total_storage := 100 * 1024 * 1024 * 1024,
       used_storage := 30 * 1024 * 1024 * 1024 },
     { node_id := "n4", total_storage := 100 * 1024 * 1024 * 1024,
       used_storage := 40 * 1024 * 1024 * 1024 },
     { node_id := "n5", total_storage := 100 * 1024 * 1024 * 1024,
       used_storage := 50 * 1024 * 1024 * 1024 }]
    3 [] 0 (by decide) (by decide) (by decide)
  rw [h.1]
  decide

/-! ### Bandwidth accounting lemmas (claim C1) -/

theorem mem_ainsert {β : Type} (k : String) (v : β) (l : List (String × β))
    (p : String × β) : p ∈ ainsert k v l → p = (k, v) ∨ p ∈ l := by
  induction l with
  | nil => intro h; simp [ainsert] at h; exact Or.inl h
  | cons q rest ih =>
    obtain ⟨k', v'⟩ := q
    intro h
    by_cases hk : k' = k
    · rw [ainsert, if_pos hk] at h
      rcases List.mem_cons.mp h with h1 | h1
      · exact Or.inl h1
      · exact Or.inr (List.mem_cons_of_mem _ h1)
    · rw [ainsert, if_neg hk] at h
      rcases List.mem_cons.mp h with h1 | h1
      · exact Or.inr (h1 ▸ List.mem_cons_self _ _)
      · rcases ih h1 with h2 | h2
        · exact Or.inl h2
        · exact Or.inr (List.mem_cons_of_mem _ h2)

theorem keys_ainsert_mem {β : Type} (k x : String) (v : β) (l : List (String × β))
    (h : x ∈ (ainsert k v l).map Prod.fst) : x = k ∨ x ∈ l.map Prod.fst := by
  obtain ⟨p, hp, hx⟩ := List.mem_map.mp h
  rcases mem_ainsert k v l p hp with h1 | h1
  · left
    rw [← hx, h1]
  · right
    exact hx ▸ List.mem_map_of_mem Prod.fst h1

theorem keys_ainsert_nodup {β : Type} (k : String) (v : β) (l : List (String × β))
    (h : (l.map Prod.fst).Nodup) : ((ainsert k v l).map Prod.fst).Nodup := by
  induction l with
  | nil => simp [ainsert]
  | cons q rest ih =>
    obtain ⟨k', v'⟩ := q
    rw [List.map_cons, List.nodup_cons] at h
    obtain ⟨h1, h2⟩ := h
    by_cases hk : k' = k
    · rw [ainsert, if_pos hk]
      rw [List.map_cons, List.nodup_cons]
      exact ⟨hk ▸ h1, h2⟩
    · rw [ainsert, if_neg hk]
      rw [List.map_cons, List.nodup_cons]
      refine ⟨?_, ih h2⟩
      intro hmem
      rcases keys_ainsert_mem k k' v rest hmem with h3 | h3
      · exact hk h3
      · exact h1 h3

theorem sum_ainsert_none (k : String) (v : Rat) (l : List (String × Rat))
    (h : List.lookup k l = none) :
    ((ainsert k v l).map Prod.snd).sum = (l.map Prod.snd).sum + v := by
  induction l with
  | nil => simp [ainsert]
  | cons q rest ih =>
    obtain ⟨k', v'⟩ := q
    rw [List.lookup] at h
    by_cases hk : k' = k
    · rw [hk] at h
      simp at h
    · have hbeq : (k == k') = false := by
        simp [beq_iff_eq]
        exact fun hh => hk hh.symm
      rw [hbeq] at h
      rw [ainsert, if_neg hk]
      simp only [List.map_cons, List.sum_cons, ih h]
      ring

theorem sum_ainsert_some (k : String) (v w : Rat) (l : List (String × Rat))
    (h : List.lookup k l = some w) :
    ((ainsert k v l).map Prod.snd).sum = (l.map Prod.snd).sum - w + v := by
  induction l with
  | nil => simp [List.lookup] at h
  | cons q rest ih =>
    obtain ⟨k', v'⟩ := q
    rw [List.lookup] at h
    by_cases hk : k' = k
    · rw [hk] at h
      simp at h
      rw [ainsert, if_pos hk]
      simp only [List.map_cons, List.sum_cons]
      rw [h]
      ring
    · have hbeq : (k == k') = false := by
        simp [beq_iff_eq]
        exact fun hh => hk hh.symm
      rw [hbeq] at h
      rw [ainsert, if_neg hk]
      simp only [List.map_cons, List.sum_cons, ih h]
      ring

theorem aerase_sublist {β : Type} (k : String) (l : List (String × β)) :
    (aerase k l).Sublist l := List.filter_sublist _

theorem sum_le_of_sublist (l1 l2 : List (String × Rat)) (h : l1.Sublist l2)
    (hpos : ∀ p ∈ l2, 0 ≤ p.2) :
    (l1.map Prod.snd).sum ≤ (l2.map Prod.snd).sum := by
  induction h with
  | slnil => exact le_refl _
  | cons p hsub ih =>
    rename_i la lb
    simp only [List.map_cons, List.sum_cons]
    have h1 := ih (fun q hq => hpos q (List.mem_cons_of_mem _ hq))
    have h2 := hpos p (List.mem_cons_self _ _)
    linarith
  | cons₂ p hsub ih =>
    rename_i la lb
    simp only [List.map_cons, List.sum_cons]
    have h1 := ih (fun q hq => hpos q (List.mem_cons_of_mem _ hq))
    linarith

theorem fold_aerase_sublist (file_id : String) :
    ∀ (ks : List Nat) (u : List (String × Rat)),
      (ks.foldl (fun acc i => aerase (transferKey file_id i) acc) u).Sublist u := by
  intro ks
  induction ks with
  | nil => intro u; exact List.Sublist.refl u
  | cons j js ih =>
    intro u
    exact (ih (aerase (transferKey file_id j) u)).trans (aerase_sublist _ _)

theorem lookup_none_of_not_mem_keys {β : Type} (k : String) (l : List (String × β))
    (h : k ∉ l.map Prod.fst) : List.lookup k l = none := by
  induction l with
  | nil => rfl
  | cons q rest ih =>
    obtain ⟨k', v'⟩ := q
    rw [List.map_cons] at h
    have h1 : k ≠ k' := fun hc => h (hc ▸ List.mem_cons_self _ _)
    have h2 : k ∉ rest.map Prod.fst := fun hc => h (List.mem_cons_of_mem _ hc)
    rw [List.lookup]
    have hbeq : (k == k') = false := by simp [beq_iff_eq, h1]
    rw [hbeq]
    exact ih h2

theorem not_mem_keys_of_lookup_none {β : Type} (k : String) (l : List (String × β))
    (h : List.lookup k l = none) : k ∉ l.map Prod.fst := by
  induction l with
  | nil => simp
  | cons q rest ih =>
    obtain ⟨k', v'⟩ := q
    rw [List.lookup] at h
    by_cases hk : k = k'
    · rw [hk] at h
      simp at h
    · have hbeq : (k == k') = false := by simp [beq_iff_eq, hk]
      rw [hbeq] at h
      rw [List.map_cons]
      intro hc
      rcases List.mem_cons.mp hc with h1 | h1
      · exact hk h1
      · exact ih h h1

theorem lookup_aerase_self {β : Type} (k : String) (l : List (String × β)) :
    List.lookup k (aerase k l) = none := by
  apply lookup_none_of_not_mem_keys
  intro hc
  obtain ⟨p, hp, hx⟩ := List.mem_map.mp hc
  have := List.mem_filter.mp hp
  rw [hx] at this
  simp at this

theorem lookup_none_aerase {β : Type} (k k' : String) (l : List (String × β))
    (h : List.lookup k l = none) : List.lookup k (aerase k' l) = none := by
  apply lookup_none_of_not_mem_keys
  intro hc
  apply not_mem_keys_of_lookup_none k l h
  obtain ⟨p, hp, hx⟩ := List.mem_map.mp hc
  exact hx ▸ List.mem_map_of_mem Prod.fst ((aerase_sublist k' l).subset hp)

theorem fold_aerase_lookup_none (file_id : String) :
    ∀ (ks : List Nat) (u : List (String × Rat)) (k : String),
      List.lookup k u = none →
      List.lookup k (ks.foldl (fun acc i => aerase (transferKey file_id i) acc) u) =
        none := by
  intro ks
  induction ks with
  | nil => intro u k h; exact h
  | cons j js ih =>
    intro u k h
    exact ih _ _ (lookup_none_aerase _ _ _ h)

theorem fold_aerase_lookup_erased (file_id : String) :
    ∀ (ks : List Nat) (u : List (String × Rat)) (i : Nat), i ∈ ks →
      List.lookup (transferKey file_id i)
        (ks.foldl (fun acc j => aerase (transferKey file_id j) acc) u) = none := by
  intro ks
  induction ks with
  | nil => intro u i h; cases h
  | cons j js ih =>
    intro u i h
    rcases List.mem_cons.mp h with h1 | h1
    · subst h1
      exact fold_aerase_lookup_none file_id js _ _ (lookup_aerase_self _ _)
    · exact ih _ _ h1

theorem sum_aerase (k : String) (l : List (String × Rat))
    (hnd : (l.map Prod.fst).Nodup) :
    ((aerase k l).map Prod.snd).sum =
      (l.map Prod.snd).sum - ((List.lookup k l).getD 0) := by
  induction l with
  | nil => simp [aerase]
  | cons q rest ih =>
    obtain ⟨k', v'⟩ := q
    rw [List.map_cons, List.nodup_cons] at hnd
    obtain ⟨h1, h2⟩ := hnd
    by_cases hk : k' = k
    · subst hk
      have hnone : List.lookup k' rest = none :=
        lookup_none_of_not_mem_keys _ _ h1
      have herase : aerase k' rest = rest := by
        apply List.filter_eq_self.mpr
        intro p hp
        simp only [ne_eq, decide_eq_true_eq]
        intro hc
        exact h1 (List.mem_map.mpr ⟨p, hp, hc⟩)
      rw [aerase]
      simp only [List.filter_cons]
      have hcond : (decide ((k', v').1 ≠ k')) = false := by simp
      rw [hcond]
      show ((rest.filter fun p => p.1 ≠ k').map Prod.snd).sum = _
      rw [show (rest.filter fun p => p.1 ≠ k') = aerase k' rest from rfl, herase]
      rw [List.lookup, show (k' == k') = true from by simp]
      simp only [List.map_cons, List.sum_cons, Option.getD]
      ring
    · rw [aerase]
      simp only [List.filter_cons]
      have hcond : (decide ((k', v').1 ≠ k)) = true := by simp [hk]
      rw [hcond]
      show (((k', v') :: rest.filter fun p => p.1 ≠ k).map Prod.snd).sum = _
      rw [List.lookup]
      have hbeq : (k == k') = false := by
        simp [beq_iff_eq]
        exact fun hh => hk hh.symm
      rw [hbeq]
      simp only [List.map_cons, List.sum_cons]
      rw [show (rest.filter fun p => p.1 ≠ k) = aerase k rest from rfl, ih h2]
      ring

theorem mem_of_lookup_eq_some {β : Type} (k : String) (w : β)
    (l : List (String × β)) (h : List.lookup k l = some w) : (k, w) ∈ l := by
  induction l with
  | nil => simp [List.lookup] at h
  | cons q rest ih =>
    obtain ⟨k', v'⟩ := q
    rw [List.lookup] at h
    by_cases hk : k = k'
    · rw [hk] at h
      simp at h
      rw [hk, h]
      exact List.mem_cons_self _ _
    · have hbeq : (k == k') = false := by simp [beq_iff_eq, hk]
      rw [hbeq] at h
      exact List.mem_cons_of_mem _ (ih h)

theorem updateFirstChunk_length (chunk_id : Nat) (f : FileChunk → FileChunk) :
    ∀ l : List FileChunk, (updateFirstChunk chunk_id f l).length = l.length := by
  intro l
  induction l with
  | nil => rfl
  | cons c rest ih =>
    unfold updateFirstChunk
    split
    · rfl
    · simp only [List.length_cons, ih]

theorem bandwidthInv_usage (n1 n2 : StorageVirtualNode)
    (hb : n1.bandwidth = n2.bandwidth)
    (hu : n1.active_bandwidth_usage = n2.active_bandwidth_usage)
    (h : BandwidthInv n2) : BandwidthInv n1 := by
  unfold BandwidthInv networkUtilization at *
  rw [hb, hu]
  exact h

theorem reserved_inv (node : StorageVirtualNode) (key : String)
    (connection_bandwidth : Rat) (hinv : BandwidthInv node)
    (hpos : ¬ min (node.bandwidth - networkUtilization node) connection_bandwidth ≤ 0) :
    (((ainsert key ((4 / 5 : Rat) *
        min (node.bandwidth - networkUtilization node) connection_bandwidth)
        node.active_bandwidth_usage).map Prod.fst).Nodup ∧
      (∀ p ∈ ainsert key ((4 / 5 : Rat) *
        min (node.bandwidth - networkUtilization node) connection_bandwidth)
        node.active_bandwidth_usage, 0 ≤ p.2) ∧
      ((ainsert key ((4 / 5 : Rat) *
        min (node.bandwidth - networkUtilization node) connection_bandwidth)
        node.active_bandwidth_usage).map Prod.snd).sum ≤ node.bandwidth) := by
  obtain ⟨hnd, hpos0, hsum⟩ := hinv
  push_neg at hpos
  set S := networkUtilization node with hS
  set A := min (node.bandwidth - S) connection_bandwidth with hA
  have hAle : A ≤ node.bandwidth - S := min_le_left _ _
  refine ⟨keys_ainsert_nodup _ _ _ hnd, ?_, ?_⟩
  · intro p hp
    rcases mem_ainsert _ _ _ _ hp with h1 | h1
    · rw [h1]
      have : (0 : Rat) ≤ 4 / 5 * A := by positivity
      simpa using this
    · exact hpos0 p h1
  · cases hl : List.lookup key node.active_bandwidth_usage with
    | none =>
      rw [sum_ainsert_none _ _ _ hl]
      unfold networkUtilization at hS
      rw [← hS]
      linarith
    | some w =>
      rw [sum_ainsert_some _ _ _ _ hl]
      have hw : 0 ≤ w := hpos0 (key, w) (mem_of_lookup_eq_some _ _ _ hl)
      unfold networkUtilization at hS
      rw [← hS]
      linarith


theorem aerase_of_lookup_none {β : Type} (k : String) (l : List (String × β))
    (h : List.lookup k l = none) : aerase k l = l := by
  unfold aerase
  apply List.filter_eq_self.mpr
  intro p hp
  simp only [ne_eq, decide_not, Bool.not_eq_eq_eq_not, Bool.not_true, decide_eq_false_iff_not]
  intro hc
  exact not_mem_keys_of_lookup_none k l h (hc ▸ List.mem_map_of_mem Prod.fst hp)

theorem complete_chunk_transfer_fields (node : StorageVirtualNode) (f : String)
    (c : Nat) :
    (complete_chunk_transfer node f c).active_bandwidth_usage =
      aerase (transferKey f c) node.active_bandwidth_usage ∧
    (complete_chunk_transfer node f c).bandwidth = node.bandwidth := by
  simp only [complete_chunk_transfer]
  cases hl : List.lookup (transferKey f c) node.active_bandwidth_usage with
  | none => exact ⟨(aerase_of_lookup_none _ _ hl).symm, rfl⟩
  | some w => exact ⟨rfl, rfl⟩

/-- C1 as amended: the sum of the per-transfer entries in
`active_bandwidth_usage` never exceeds the node's bandwidth (given a
well-formed bandwidth map the bound is preserved by
`process_chunk_transfer` and by `complete_chunk_transfer`), and a chunk
transfer that fails — unknown file or chunk, checksum mismatch, or no
available bandwidth — leaves the map, and hence the sum, exactly
unchanged. A successful chunk transfer, however, keeps its reservation
in the map: the reservations of a file are released only when the
file's last chunk completes (whereupon every per-chunk key of that file
is removed) or by an explicit `complete_chunk_transfer` call, which
removes exactly its key and lowers the sum by exactly that reservation.
The claim's assertion that the sum returns to its prior value after
every single finished chunk transfer is false; see the counterexample. -/
theorem C1_bandwidth_accounting (hash : Bytes → String) (verify_on_write : Bool)
    (node : StorageVirtualNode) (file_id : String) (chunk_id : Nat)
    (source_node : String) (hinv : BandwidthInv node) :
    BandwidthInv
      (process_chunk_transfer hash verify_on_write node file_id chunk_id
        source_node).1 ∧
    ((process_chunk_transfer hash verify_on_write node file_id chunk_id
        source_node).2 = false →
      (process_chunk_transfer hash verify_on_write node file_id chunk_id
        source_node).1.active_bandwidth_usage = node.active_bandwidth_usage) ∧
    (∀ transfer, List.lookup file_id node.active_transfers = some transfer →
      (process_chunk_transfer hash verify_on_write node file_id chunk_id
        source_node).2 = true →
      List.lookup file_id
        (process_chunk_transfer hash verify_on_write node file_id chunk_id
          source_node).1.active_transfers = none →
      ∀ i, i < transfer.chunks.length →
        List.lookup (transferKey file_id i)
          (process_chunk_transfer hash verify_on_write node file_id chunk_id
            source_node).1.active_bandwidth_usage = none) ∧
    BandwidthInv (complete_chunk_transfer node file_id chunk_id) ∧
    networkUtilization (complete_chunk_transfer node file_id chunk_id) =
      networkUtilization node -
        ((List.lookup (transferKey file_id chunk_id)
          node.active_bandwidth_usage).getD 0) := by
  obtain ⟨hnd, hpos0, hsum⟩ := hinv
  have hfields := complete_chunk_transfer_fields node file_id chunk_id
  have hcomplete : BandwidthInv (complete_chunk_transfer node file_id chunk_id) ∧
      networkUtilization (complete_chunk_transfer node file_id chunk_id) =
        networkUtilization node -
          ((List.lookup (transferKey file_id chunk_id)
            node.active_bandwidth_usage).getD 0) := by
    constructor
    · refine ⟨?_, ?_, ?_⟩
      · rw [hfields.1]
        exact ((aerase_sublist _ _).map Prod.fst).nodup hnd
      · intro p hp
        rw [hfields.1] at hp
        exact hpos0 p ((aerase_sublist _ _).subset hp)
      · unfold networkUtilization
        rw [hfields.1, hfields.2]
        exact le_trans
          (sum_le_of_sublist _ _ (aerase_sublist _ _) hpos0) hsum
    · unfold networkUtilization
      rw [hfields.1, sum_aerase _ _ hnd]
  cases hlook : List.lookup file_id node.active_transfers with
  | none =>
    simp only [process_chunk_transfer, hlook]
    refine ⟨⟨hnd, hpos0, hsum⟩, fun _ => trivial, ?_, hcomplete.1, hcomplete.2⟩
    intro transfer ht
    simp at ht
  | some transfer =>
    cases hfind : transfer.chunks.find? (fun c => c.chunk_id = chunk_id) with
    | none =>
      simp only [process_chunk_transfer, hlook, hfind]
      refine ⟨⟨hnd, hpos0, hsum⟩, fun _ => trivial, ?_, hcomplete.1, hcomplete.2⟩
      intro transfer' ht htrue
      simp at htrue
    | some chunk =>
      simp only [process_chunk_transfer, hlook, hfind]
      by_cases hver : verify_on_write ∧ hash chunk.data ≠ chunk.checksum
      · rw [if_pos hver]
        refine ⟨⟨hnd, hpos0, hsum⟩, fun _ => rfl, ?_, hcomplete.1, hcomplete.2⟩
        intro transfer' ht htrue
        simp at htrue
      · rw [if_neg hver]
        by_cases hbw : min (node.bandwidth - networkUtilization node)
            ((List.lookup source_node node.connections).getD node.bandwidth) ≤ 0
        · rw [if_pos hbw]
          refine ⟨⟨hnd, hpos0, hsum⟩, fun _ => rfl, ?_, hcomplete.1, hcomplete.2⟩
          intro transfer' ht htrue
          simp at htrue
        · rw [if_neg hbw]
          have hres := reserved_inv node (transferKey file_id chunk_id)
            ((List.lookup source_node node.connections).getD node.bandwidth)
            ⟨hnd, hpos0, hsum⟩ hbw
          obtain ⟨hnd1, hpos1, hsum1⟩ := hres
          by_cases hall : (updateFirstChunk chunk_id
              (fun c => { c with status := TransferStatus.COMPLETED })
              transfer.chunks).all (fun c => c.status = TransferStatus.COMPLETED)
          · rw [if_pos hall]
            refine ⟨⟨?_, ?_, ?_⟩, ?_, ?_, hcomplete.1, hcomplete.2⟩
            · exact ((fold_aerase_sublist file_id _ _).map Prod.fst).nodup hnd1
            · intro p hp
              exact hpos1 p ((fold_aerase_sublist file_id _ _).subset hp)
            · exact le_trans
                (sum_le_of_sublist _ _ (fold_aerase_sublist file_id _ _) hpos1)
                hsum1
            · intro hfalse
              simp at hfalse
            · intro transfer' ht _ _ i hi
              injection ht with ht
              subst ht
              exact fold_aerase_lookup_erased file_id _ _ i
                (by rw [List.mem_range, updateFirstChunk_length]; exact hi)
          · rw [if_neg hall]
            refine ⟨⟨hnd1, hpos1, hsum1⟩, ?_, ?_, hcomplete.1, hcomplete.2⟩
            · intro hfalse
              simp at hfalse
            · intro transfer' ht _ hnone
              simp [lookup_ainsert_self] at hnone

/-- Witness for C1 at a concrete idle node: the bandwidth invariant
holds before and after a `process_chunk_transfer` call. -/
theorem C1_bandwidth_accounting_witness :
    BandwidthInv c1_node ∧
      BandwidthInv
        (process_chunk_transfer (fun _ => "") true c1_node "f" 0 "n2").1 ∧
      networkUtilization (complete_chunk_transfer c1_node "f" 0) =
        networkUtilization c1_node -
          ((List.lookup (transferKey "f" 0)
            c1_node.active_bandwidth_usage).getD 0) := by
  have h : BandwidthInv c1_node := by
    refine ⟨?_, ?_, ?_⟩ <;> norm_num [c1_node, networkUtilization]
  have hmain := C1_bandwidth_accounting (fun _ => "") true c1_node "f" 0 "n2" h
  exact ⟨h, hmain.1, hmain.2.2.2.2⟩

/-- C1 counterexample: on a node with bandwidth 100 and an empty
bandwidth map, successfully transferring the first of two chunks leaves
80 units reserved in `active_bandwidth_usage` — the sum does not return
to its prior value 0 after the chunk transfer finishes. -/
theorem C1_counterexample :
    (process_chunk_transfer (fun _ => "") true c1_node2 "f" 0 "n2").2 = true ∧
    networkUtilization
      (process_chunk_transfer (fun _ => "") true c1_node2 "f" 0 "n2").1 = 80 ∧
    networkUtilization c1_node2 = 0 := by
  have hne : TransferStatus.PENDING ≠ TransferStatus.COMPLETED := by decide
  refine ⟨?_, ?_, ?_⟩ <;>
    norm_num [process_chunk_transfer, c1_node2, c1_transfer, c1_chunk0,
      c1_chunk1, networkUtilization, transferKey, ainsert, updateFirstChunk,
      List.lookup, List.find?, hne]
